import Mathlib

/-!
Verification of the HexGrid board construction (src/Board.py).

The Python code is object-based with mutable fields; we embed it with an
arena of `Field` records indexed by natural numbers (object references
become arena indices), and every mutation becomes explicit state passing.
Python's direction set is iterated in the order it is written in the
source literal; set iteration order is unspecified in Python, and all
properties proved below are insensitive to that order.
-/

namespace HexGrid

/-- The six neighbor directions of `BaseHexField.__neighbor_directions__`. -/
inductive Dir : Type
  | topleft | topright | bottomleft | bottomright | left | right
deriving DecidableEq, Repr

/-- The direction set, in the order of the source literal. -/
def dirList : List Dir :=
  [.topleft, .topright, .bottomleft, .bottomright, .left, .right]

/-- `BaseHexField.__direction_adjustment__`: axial coordinate delta of each direction. -/
def directionAdjustment : Dir → Int × Int
  | .topleft => (0, -1)
  | .topright => (1, -1)
  | .left => (-1, 0)
  | .right => (1, 0)
  | .bottomleft => (-1, 1)
  | .bottomright => (0, 1)

/-- `BaseHexField.__opposite_direction__`. -/
def oppositeDirection : Dir → Dir
  | .topleft => .bottomright
  | .topright => .bottomleft
  | .left => .right
  | .right => .left
  | .bottomleft => .topright
  | .bottomright => .topleft

/-- The neighbor dictionary of a field: the Python `_neighbors` dict always
has exactly the six direction keys (constructor invariant), each mapped to a
field reference (arena index) or `none`. -/
structure Nbrs where
  topleft : Option Nat
  topright : Option Nat
  bottomleft : Option Nat
  bottomright : Option Nat
  left : Option Nat
  right : Option Nat
deriving DecidableEq, Repr

def Nbrs.get (n : Nbrs) : Dir → Option Nat
  | .topleft => n.topleft
  | .topright => n.topright
  | .bottomleft => n.bottomleft
  | .bottomright => n.bottomright
  | .left => n.left
  | .right => n.right

def Nbrs.set (n : Nbrs) (d : Dir) (v : Option Nat) : Nbrs :=
  match d with
  | .topleft => { n with topleft := v }
  | .topright => { n with topright := v }
  | .bottomleft => { n with bottomleft := v }
  | .bottomright => { n with bottomright := v }
  | .left => { n with left := v }
  | .right => { n with right := v }

def Nbrs.empty : Nbrs := ⟨none, none, none, none, none, none⟩

/-- A `ValueHexField`: axial coordinates, a value, and the neighbor dict. -/
structure Field where
  coords : Int × Int
  value : Int
  nbrs : Nbrs
deriving DecidableEq, Repr

instance : Inhabited Field := ⟨⟨(0, 0), 0, Nbrs.empty⟩⟩

/-- The object heap: all `ValueHexField` objects created so far, in creation
order; an object reference is an index into this list. -/
abbrev Arena := List Field

def getF (A : Arena) (i : Nat) : Field := A.getD i default

/-- Mutate object `i`: set its neighbor in direction `d` (the effect of
`field.set_neighbor(direction, neighbor)` with a recognized direction). -/
def setNbr (A : Arena) (i : Nat) (d : Dir) (v : Option Nat) : Arena :=
  A.set i { getF A i with nbrs := (getF A i).nbrs.set d v }

/-- One iteration of the inner direction loop of
`create_superhex_with_concentric_values`: if `field.get_neighbor(direction)
is None`, create the new field (with the back link as its only neighbor),
set the spawning field's forward link, and append the new field to the
ring batch. -/
def spawnDir (radius r : Int) (fid : Nat) (st : Arena × List Nat) (d : Dir) :
    Arena × List Nat :=
  match (getF st.1 fid).nbrs.get d with
  | some _ => st
  | none =>
    let f := getF st.1 fid
    let newCoords : Int × Int :=
      (f.coords.1 + (directionAdjustment d).1, f.coords.2 + (directionAdjustment d).2)
    let newId := st.1.length
    let newField : Field :=
      ⟨newCoords, radius + 1 - r, Nbrs.empty.set (oppositeDirection d) (some fid)⟩
    (setNbr (st.1 ++ [newField]) fid d (some newId), st.2 ++ [newId])

/-- The loop `for direction in ValueHexField.get_directions()` for one field. -/
def processField (radius r : Int) (st : Arena × List Nat) (fid : Nat) :
    Arena × List Nat :=
  dirList.foldl (spawnDir radius r fid) st

/-- The build state: the heap plus the running `fields` list of references. -/
structure BState where
  arena : Arena
  fields : List Nat
deriving DecidableEq, Repr

/-- One iteration of `for r in range(1, radius+1)`: scan all current fields,
spawn into their absent directions, then `fields += new_field_ring`. -/
def doRing (radius : Int) (st : BState) (r : Int) : BState :=
  let p := st.fields.foldl (processField radius r) (st.arena, [])
  ⟨p.1, st.fields ++ p.2⟩

/-- The ring indices `1, 2, ..., radius` of `range(1, radius+1)`. -/
def ringIndices (radius : Int) : List Int :=
  (List.range radius.toNat).map (fun k : Nat => (k : Int) + 1)

/-- The state after the ring-growing loop, started from the center field
`ValueHexField(value=radius+1, coords=(0, 0))`. -/
def buildState (radius : Int) : BState :=
  (ringIndices radius).foldl (doRing radius)
    ⟨[⟨(0, 0), radius + 1, Nbrs.empty⟩], [0]⟩

/-- The body of the merge loop for one duplicate: for every direction,
if the existing (kept) field's neighbor is `None`, copy the duplicate's
neighbor entry over. -/
def mergeNbrs (A : Arena) (keptId dupId : Nat) : Arena :=
  dirList.foldl
    (fun A d =>
      match (getF A keptId).nbrs.get d with
      | some _ => A
      | none => setNbr A keptId d ((getF A dupId).nbrs.get d))
    A

/-- One iteration of the merge loop: look up fields of `final_fields`
sharing the scanned field's coordinates; on zero matches append, on one
match merge neighbors, otherwise raise `RuntimeError`. -/
def mergeStep (acc : Except Unit (Arena × List Nat)) (fid : Nat) :
    Except Unit (Arena × List Nat) :=
  match acc with
  | .error e => .error e
  | .ok (A, finals) =>
    let existing := finals.filter (fun f => (getF A f).coords = (getF A fid).coords)
    match existing with
    | [] => .ok (A, finals ++ [fid])
    | [e] => .ok (mergeNbrs A e fid, finals)
    | _ :: _ :: _ => .error ()

/-- A `HexBoard`: the final deduplicated field list (as references into the
heap, which the embedding carries alongside). -/
structure HexBoard where
  arena : Arena
  fields : List Nat
deriving DecidableEq, Repr

/-- The two exception kinds of `create_superhex_with_concentric_values`:
`ValueError` for radius < 1, `RuntimeError` ("A01") in the merge pass. -/
inductive BuildError : Type
  | valueError
  | runtimeError
deriving DecidableEq, Repr

/-- `HexBoard.create_superhex_with_concentric_values`. -/
def create_superhex_with_concentric_values (radius : Int) :
    Except BuildError HexBoard :=
  if radius < 1 then .error .valueError
  else
    let st := buildState radius
    match st.fields.foldl mergeStep (.ok (st.arena, [])) with
    | .error _ => .error .runtimeError
    | .ok (A, finals) => .ok ⟨A, finals⟩

/-- `HexBoard.get_field_at`: linear scan returning the first field with
matching coordinates (implicitly `None` when no field matches). -/
def HexBoard.get_field_at (b : HexBoard) (coords : Int × Int) : Option Nat :=
  b.fields.find? (fun i => (getF b.arena i).coords = coords)

/-- Ring distance from the center: `max(|q|, |r|, |q+r|)`. -/
def hexDist (c : Int × Int) : Nat :=
  max (max c.1.natAbs c.2.natAbs) (c.1 + c.2).natAbs

/-! ### Basic facts about directions and neighbor maps -/

theorem oppositeDirection_involutive (d : Dir) :
    oppositeDirection (oppositeDirection d) = d := by
  cases d <;> rfl

theorem directionAdjustment_opposite (d : Dir) :
    directionAdjustment (oppositeDirection d) =
      (-(directionAdjustment d).1, -(directionAdjustment d).2) := by
  cases d <;> rfl

theorem mem_dirList (d : Dir) : d ∈ dirList := by
  cases d <;> simp [dirList]

theorem Nbrs.get_set_same (n : Nbrs) (d : Dir) (v : Option Nat) :
    (n.set d v).get d = v := by
  cases d <;> rfl

theorem Nbrs.get_set_ne (n : Nbrs) (d e : Dir) (v : Option Nat) (h : e ≠ d) :
    (n.set d v).get e = n.get e := by
  cases d <;> cases e <;> first
    | exact absurd rfl h
    | rfl

theorem Nbrs.get_empty (d : Dir) : Nbrs.empty.get d = none := by
  cases d <;> rfl

theorem Nbrs.get_set (n : Nbrs) (d e : Dir) (v : Option Nat) :
    (n.set d v).get e = if e = d then v else n.get e := by
  by_cases h : e = d
  · subst h; simp [Nbrs.get_set_same]
  · simp [h, Nbrs.get_set_ne n d e v h]

/-! ### Arena access lemmas -/

theorem getF_append_lt (A B : Arena) (i : Nat) (h : i < A.length) :
    getF (A ++ B) i = getF A i :=
  List.getD_append A B default i h

theorem getF_append_len (A : Arena) (x : Field) :
    getF (A ++ [x]) A.length = x := by
  unfold getF
  rw [List.getD_append_right A [x] default A.length le_rfl]
  simp

theorem getF_of_le (A : Arena) (i : Nat) (h : A.length ≤ i) :
    getF A i = default :=
  List.getD_eq_default A default h

theorem length_setNbr (A : Arena) (i : Nat) (d : Dir) (v : Option Nat) :
    (setNbr A i d v).length = A.length := by
  unfold setNbr
  exact List.length_set A i _

theorem getF_setNbr_same (A : Arena) (i : Nat) (d : Dir) (v : Option Nat)
    (h : i < A.length) :
    getF (setNbr A i d v) i = { getF A i with nbrs := (getF A i).nbrs.set d v } := by
  unfold setNbr getF
  rw [List.getD_eq_getElem _ _ (by simpa using h), List.getElem_set_self]

theorem getF_setNbr_ne (A : Arena) (i j : Nat) (d : Dir) (v : Option Nat)
    (h : j ≠ i) :
    getF (setNbr A i d v) j = getF A j := by
  unfold setNbr getF
  rw [List.getD_eq_getElem?_getD, List.getElem?_set_ne (fun hh => h hh.symm),
    ← List.getD_eq_getElem?_getD]

/-- Coordinates of `setNbr` results: only the neighbor map changes. -/
theorem coords_setNbr (A : Arena) (i j : Nat) (d : Dir) (v : Option Nat) :
    (getF (setNbr A i d v) j).coords = (getF A j).coords := by
  by_cases h : j = i
  · subst h
    by_cases hi : j < A.length
    · rw [getF_setNbr_same A j d v hi]
    · rw [getF_of_le _ _ (length_setNbr A j d v ▸ Nat.le_of_not_lt hi),
        getF_of_le _ _ (Nat.le_of_not_lt hi)]
  · rw [getF_setNbr_ne A i j d v h]

theorem value_setNbr (A : Arena) (i j : Nat) (d : Dir) (v : Option Nat) :
    (getF (setNbr A i d v) j).value = (getF A j).value := by
  by_cases h : j = i
  · subst h
    by_cases hi : j < A.length
    · rw [getF_setNbr_same A j d v hi]
    · rw [getF_of_le _ _ (length_setNbr A j d v ▸ Nat.le_of_not_lt hi),
        getF_of_le _ _ (Nat.le_of_not_lt hi)]
  · rw [getF_setNbr_ne A i j d v h]

theorem nbrs_setNbr (A : Arena) (i j : Nat) (d e : Dir) (v : Option Nat)
    (hi : i < A.length) :
    (getF (setNbr A i d v) j).nbrs.get e =
      if j = i ∧ e = d then v else (getF A j).nbrs.get e := by
  by_cases h : j = i
  · subst h
    rw [getF_setNbr_same A j d v hi]
    by_cases he : e = d
    · subst he; simp [Nbrs.get_set_same]
    · simp [he, Nbrs.get_set_ne _ d e v he]
  · rw [getF_setNbr_ne A i j d v h]
    simp [h]

/-! ### Arithmetic of the hex distance -/

theorem hexDist_le_iff (c : Int × Int) (n : Nat) :
    hexDist c ≤ n ↔ c.1.natAbs ≤ n ∧ c.2.natAbs ≤ n ∧ (c.1 + c.2).natAbs ≤ n := by
  unfold hexDist
  simp [Nat.max_le]
  tauto

theorem hexDist_eq_zero_iff (c : Int × Int) : hexDist c = 0 ↔ c = (0, 0) := by
  constructor
  · intro h
    have h1 := (hexDist_le_iff c 0).mp (Nat.le_of_eq h)
    obtain ⟨q, r⟩ := c
    simp only [Prod.mk.injEq]
    omega
  · intro h; subst h; rfl

theorem hexDist_center : hexDist (0, 0) = 0 := rfl

/-- Moving one step changes the hex distance by at most one. -/
theorem hexDist_adjacent_le (c : Int × Int) (d : Dir) :
    hexDist (c.1 + (directionAdjustment d).1, c.2 + (directionAdjustment d).2) ≤
      hexDist c + 1 := by
  obtain ⟨q, r⟩ := c
  have h1 : q.natAbs ≤ hexDist (q, r) := le_max_of_le_left (le_max_left _ _)
  have h2 : r.natAbs ≤ hexDist (q, r) := le_max_of_le_left (le_max_right _ _)
  have h3 : (q + r).natAbs ≤ hexDist (q, r) := le_max_right _ _
  rw [hexDist_le_iff]
  cases d <;> simp [directionAdjustment] <;> omega

theorem hexDist_ge_q (c : Int × Int) : c.1.natAbs ≤ hexDist c :=
  le_max_of_le_left (le_max_left _ _)

theorem hexDist_ge_r (c : Int × Int) : c.2.natAbs ≤ hexDist c :=
  le_max_of_le_left (le_max_right _ _)

theorem hexDist_ge_s (c : Int × Int) : (c.1 + c.2).natAbs ≤ hexDist c :=
  le_max_right _ _

/-- The hex distance is attained by one of the three components. -/
theorem hexDist_attained (q r : Int) :
    hexDist (q, r) = q.natAbs ∨ hexDist (q, r) = r.natAbs ∨
      hexDist (q, r) = (q + r).natAbs := by
  unfold hexDist
  rcases Nat.le_total (max q.natAbs r.natAbs) (q + r).natAbs with hs | hs
  · right; right; simpa using max_eq_right hs
  · rw [max_eq_left hs]
    rcases Nat.le_total q.natAbs r.natAbs with hqr | hqr
    · right; left; exact max_eq_right hqr
    · left; exact max_eq_left hqr

/-- Every coordinate at positive hex distance has a neighbor one step closer
to the center. -/
theorem hexDist_step_down (c : Int × Int) (h : 1 ≤ hexDist c) :
    ∃ d : Dir,
      hexDist (c.1 + (directionAdjustment d).1, c.2 + (directionAdjustment d).2) + 1 =
        hexDist c := by
  obtain ⟨q, r⟩ := c
  have h1 : q.natAbs ≤ hexDist (q, r) := hexDist_ge_q (q, r)
  have h2 : r.natAbs ≤ hexDist (q, r) := hexDist_ge_r (q, r)
  have h3 : (q + r).natAbs ≤ hexDist (q, r) := hexDist_ge_s (q, r)
  have h4 := hexDist_attained q r
  rcases Int.le_or_lt 0 q with hq0 | hq0
  · rcases Int.le_or_lt 0 r with hr0 | hr0
    · rcases Int.le_or_lt 1 r with hr1 | hr1
      · refine ⟨Dir.topleft, ?_⟩
        have u2 := hexDist_ge_r (q + (directionAdjustment Dir.topleft).1,
          r + (directionAdjustment Dir.topleft).2)
        have u3 := hexDist_ge_s (q + (directionAdjustment Dir.topleft).1,
          r + (directionAdjustment Dir.topleft).2)
        have hle : hexDist (q + (directionAdjustment Dir.topleft).1,
            r + (directionAdjustment Dir.topleft).2) ≤ hexDist (q, r) - 1 := by
          rw [hexDist_le_iff]; simp only [directionAdjustment]; omega
        simp only [directionAdjustment] at *
        omega
      · refine ⟨Dir.left, ?_⟩
        have u1 := hexDist_ge_q (q + (directionAdjustment Dir.left).1,
          r + (directionAdjustment Dir.left).2)
        have u3 := hexDist_ge_s (q + (directionAdjustment Dir.left).1,
          r + (directionAdjustment Dir.left).2)
        have hle : hexDist (q + (directionAdjustment Dir.left).1,
            r + (directionAdjustment Dir.left).2) ≤ hexDist (q, r) - 1 := by
          rw [hexDist_le_iff]; simp only [directionAdjustment]; omega
        simp only [directionAdjustment] at *
        omega
    · rcases Int.le_or_lt 1 q with hq1 | hq1
      · refine ⟨Dir.bottomleft, ?_⟩
        have u1 := hexDist_ge_q (q + (directionAdjustment Dir.bottomleft).1,
          r + (directionAdjustment Dir.bottomleft).2)
        have u2 := hexDist_ge_r (q + (directionAdjustment Dir.bottomleft).1,
          r + (directionAdjustment Dir.bottomleft).2)
        have hle : hexDist (q + (directionAdjustment Dir.bottomleft).1,
            r + (directionAdjustment Dir.bottomleft).2) ≤ hexDist (q, r) - 1 := by
          rw [hexDist_le_iff]; simp only [directionAdjustment]; omega
        simp only [directionAdjustment] at *
        omega
      · refine ⟨Dir.bottomright, ?_⟩
        have u2 := hexDist_ge_r (q + (directionAdjustment Dir.bottomright).1,
          r + (directionAdjustment Dir.bottomright).2)
        have u3 := hexDist_ge_s (q + (directionAdjustment Dir.bottomright).1,
          r + (directionAdjustment Dir.bottomright).2)
        have hle : hexDist (q + (directionAdjustment Dir.bottomright).1,
            r + (directionAdjustment Dir.bottomright).2) ≤ hexDist (q, r) - 1 := by
          rw [hexDist_le_iff]; simp only [directionAdjustment]; omega
        simp only [directionAdjustment] at *
        omega
  · rcases Int.le_or_lt 1 r with hr1 | hr1
    · refine ⟨Dir.topright, ?_⟩
      have u1 := hexDist_ge_q (q + (directionAdjustment Dir.topright).1,
        r + (directionAdjustment Dir.topright).2)
      have u2 := hexDist_ge_r (q + (directionAdjustment Dir.topright).1,
        r + (directionAdjustment Dir.topright).2)
      have hle : hexDist (q + (directionAdjustment Dir.topright).1,
          r + (directionAdjustment Dir.topright).2) ≤ hexDist (q, r) - 1 := by
        rw [hexDist_le_iff]; simp only [directionAdjustment]; omega
      simp only [directionAdjustment] at *
      omega
    · rcases Int.le_or_lt r (-1) with hrm | hrm
      · refine ⟨Dir.bottomright, ?_⟩
        have u2 := hexDist_ge_r (q + (directionAdjustment Dir.bottomright).1,
          r + (directionAdjustment Dir.bottomright).2)
        have u3 := hexDist_ge_s (q + (directionAdjustment Dir.bottomright).1,
          r + (directionAdjustment Dir.bottomright).2)
        have hle : hexDist (q + (directionAdjustment Dir.bottomright).1,
            r + (directionAdjustment Dir.bottomright).2) ≤ hexDist (q, r) - 1 := by
          rw [hexDist_le_iff]; simp only [directionAdjustment]; omega
        simp only [directionAdjustment] at *
        omega
      · refine ⟨Dir.right, ?_⟩
        have u1 := hexDist_ge_q (q + (directionAdjustment Dir.right).1,
          r + (directionAdjustment Dir.right).2)
        have u3 := hexDist_ge_s (q + (directionAdjustment Dir.right).1,
          r + (directionAdjustment Dir.right).2)
        have hle : hexDist (q + (directionAdjustment Dir.right).1,
            r + (directionAdjustment Dir.right).2) ≤ hexDist (q, r) - 1 := by
          rw [hexDist_le_iff]; simp only [directionAdjustment]; omega
        simp only [directionAdjustment] at *
        omega

/-- Every coordinate has a neighbor strictly farther from the center. -/
theorem hexDist_step_up (c : Int × Int) :
    ∃ d : Dir,
      hexDist (c.1 + (directionAdjustment d).1, c.2 + (directionAdjustment d).2) =
        hexDist c + 1 := by
  obtain ⟨q, r⟩ := c
  have h1 : q.natAbs ≤ hexDist (q, r) := hexDist_ge_q (q, r)
  have h2 : r.natAbs ≤ hexDist (q, r) := hexDist_ge_r (q, r)
  have h3 : (q + r).natAbs ≤ hexDist (q, r) := hexDist_ge_s (q, r)
  have h4 := hexDist_attained q r
  rcases Int.le_or_lt 0 q with hq0 | hq0
  · rcases Int.le_or_lt 0 r with hr0 | hr0
    · refine ⟨Dir.right, ?_⟩
      have u3 := hexDist_ge_s (q + (directionAdjustment Dir.right).1,
        r + (directionAdjustment Dir.right).2)
      have hle : hexDist (q + (directionAdjustment Dir.right).1,
          r + (directionAdjustment Dir.right).2) ≤ hexDist (q, r) + 1 := by
        rw [hexDist_le_iff]; simp only [directionAdjustment]; omega
      simp only [directionAdjustment] at *
      omega
    · rcases Int.le_or_lt 0 (q + r) with hs0 | hs0
      · refine ⟨Dir.topright, ?_⟩
        have u1 := hexDist_ge_q (q + (directionAdjustment Dir.topright).1,
          r + (directionAdjustment Dir.topright).2)
        have u2 := hexDist_ge_r (q + (directionAdjustment Dir.topright).1,
          r + (directionAdjustment Dir.topright).2)
        have hle : hexDist (q + (directionAdjustment Dir.topright).1,
            r + (directionAdjustment Dir.topright).2) ≤ hexDist (q, r) + 1 := by
          rw [hexDist_le_iff]; simp only [directionAdjustment]; omega
        simp only [directionAdjustment] at *
        omega
      · refine ⟨Dir.topleft, ?_⟩
        have u2 := hexDist_ge_r (q + (directionAdjustment Dir.topleft).1,
          r + (directionAdjustment Dir.topleft).2)
        have u3 := hexDist_ge_s (q + (directionAdjustment Dir.topleft).1,
          r + (directionAdjustment Dir.topleft).2)
        have hle : hexDist (q + (directionAdjustment Dir.topleft).1,
            r + (directionAdjustment Dir.topleft).2) ≤ hexDist (q, r) + 1 := by
          rw [hexDist_le_iff]; simp only [directionAdjustment]; omega
        simp only [directionAdjustment] at *
        omega
  · rcases Int.le_or_lt r 0 with hr0 | hr0
    · refine ⟨Dir.left, ?_⟩
      have u3 := hexDist_ge_s (q + (directionAdjustment Dir.left).1,
        r + (directionAdjustment Dir.left).2)
      have hle : hexDist (q + (directionAdjustment Dir.left).1,
          r + (directionAdjustment Dir.left).2) ≤ hexDist (q, r) + 1 := by
        rw [hexDist_le_iff]; simp only [directionAdjustment]; omega
      simp only [directionAdjustment] at *
      omega
    · rcases Int.le_or_lt (q + r) 0 with hs0 | hs0
      · refine ⟨Dir.bottomleft, ?_⟩
        have u1 := hexDist_ge_q (q + (directionAdjustment Dir.bottomleft).1,
          r + (directionAdjustment Dir.bottomleft).2)
        have u2 := hexDist_ge_r (q + (directionAdjustment Dir.bottomleft).1,
          r + (directionAdjustment Dir.bottomleft).2)
        have hle : hexDist (q + (directionAdjustment Dir.bottomleft).1,
            r + (directionAdjustment Dir.bottomleft).2) ≤ hexDist (q, r) + 1 := by
          rw [hexDist_le_iff]; simp only [directionAdjustment]; omega
        simp only [directionAdjustment] at *
        omega
      · refine ⟨Dir.bottomright, ?_⟩
        have u2 := hexDist_ge_r (q + (directionAdjustment Dir.bottomright).1,
          r + (directionAdjustment Dir.bottomright).2)
        have u3 := hexDist_ge_s (q + (directionAdjustment Dir.bottomright).1,
          r + (directionAdjustment Dir.bottomright).2)
        have hle : hexDist (q + (directionAdjustment Dir.bottomright).1,
            r + (directionAdjustment Dir.bottomright).2) ≤ hexDist (q, r) + 1 := by
          rw [hexDist_le_iff]; simp only [directionAdjustment]; omega
        simp only [directionAdjustment] at *
        omega

/-! ### Description of a single spawn step -/

/-- The ring index in which object `i` was created, recovered from its
immutable value (`value = radius + 1 - r`). -/
def ringOf (radius : Int) (A : Arena) (i : Nat) : Int :=
  radius + 1 - (getF A i).value

theorem spawnDir_some (radius r : Int) (fid : Nat) (st : Arena × List Nat) (d : Dir)
    (j : Nat) (hsome : (getF st.1 fid).nbrs.get d = some j) :
    spawnDir radius r fid st d = st := by
  unfold spawnDir
  rw [hsome]

theorem spawnDir_none (radius r : Int) (fid : Nat) (A : Arena) (ring : List Nat)
    (d : Dir) (hnone : (getF A fid).nbrs.get d = none) :
    spawnDir radius r fid (A, ring) d =
      (setNbr
        (A ++ [⟨((getF A fid).coords.1 + (directionAdjustment d).1,
                 (getF A fid).coords.2 + (directionAdjustment d).2),
                radius + 1 - r,
                Nbrs.empty.set (oppositeDirection d) (some fid)⟩])
        fid d (some A.length), ring ++ [A.length]) := by
  unfold spawnDir
  rw [hnone]

theorem spawn_length (radius r : Int) (fid : Nat) (A : Arena) (ring : List Nat)
    (d : Dir) (hnone : (getF A fid).nbrs.get d = none) :
    (spawnDir radius r fid (A, ring) d).1.length = A.length + 1 := by
  rw [spawnDir_none radius r fid A ring d hnone]
  simp [length_setNbr]

theorem spawn_ring (radius r : Int) (fid : Nat) (A : Arena) (ring : List Nat)
    (d : Dir) (hnone : (getF A fid).nbrs.get d = none) :
    (spawnDir radius r fid (A, ring) d).2 = ring ++ [A.length] := by
  rw [spawnDir_none radius r fid A ring d hnone]

theorem spawn_coords (radius r : Int) (fid : Nat) (A : Arena) (ring : List Nat)
    (d : Dir) (hfid : fid < A.length) (hnone : (getF A fid).nbrs.get d = none)
    (i : Nat) :
    (getF (spawnDir radius r fid (A, ring) d).1 i).coords =
      if i = A.length then
        ((getF A fid).coords.1 + (directionAdjustment d).1,
         (getF A fid).coords.2 + (directionAdjustment d).2)
      else (getF A i).coords := by
  rw [spawnDir_none radius r fid A ring d hnone]
  by_cases hi : i = A.length
  · subst hi
    rw [coords_setNbr, getF_append_len, if_pos rfl]
  · rw [coords_setNbr]
    by_cases hlt : i < A.length
    · rw [getF_append_lt A _ i hlt, if_neg hi]
    · rw [if_neg hi, getF_of_le _ _ (Nat.le_of_not_lt hlt),
        getF_of_le (A ++ _) i (by simp; omega)]

theorem spawn_value (radius r : Int) (fid : Nat) (A : Arena) (ring : List Nat)
    (d : Dir) (hfid : fid < A.length) (hnone : (getF A fid).nbrs.get d = none)
    (i : Nat) :
    (getF (spawnDir radius r fid (A, ring) d).1 i).value =
      if i = A.length then radius + 1 - r else (getF A i).value := by
  rw [spawnDir_none radius r fid A ring d hnone]
  by_cases hi : i = A.length
  · subst hi
    rw [value_setNbr, getF_append_len, if_pos rfl]
  · rw [value_setNbr]
    by_cases hlt : i < A.length
    · rw [getF_append_lt A _ i hlt, if_neg hi]
    · rw [if_neg hi, getF_of_le _ _ (Nat.le_of_not_lt hlt),
        getF_of_le (A ++ _) i (by simp; omega)]

theorem spawn_slot (radius r : Int) (fid : Nat) (A : Arena) (ring : List Nat)
    (d : Dir) (hfid : fid < A.length) (hnone : (getF A fid).nbrs.get d = none)
    (i : Nat) (e : Dir) :
    (getF (spawnDir radius r fid (A, ring) d).1 i).nbrs.get e =
      if i = fid ∧ e = d then some A.length
      else if i = A.length then
        (Nbrs.empty.set (oppositeDirection d) (some fid)).get e
      else (getF A i).nbrs.get e := by
  rw [spawnDir_none radius r fid A ring d hnone]
  rw [nbrs_setNbr _ fid i d e (some A.length) (by simp; omega)]
  by_cases hcase : i = fid ∧ e = d
  · rw [if_pos hcase, if_pos hcase]
  · rw [if_neg hcase, if_neg hcase]
    by_cases hi : i = A.length
    · subst hi
      rw [getF_append_len, if_pos rfl]
    · rw [if_neg hi]
      by_cases hlt : i < A.length
      · rw [getF_append_lt A _ i hlt]
      · rw [getF_of_le _ _ (Nat.le_of_not_lt hlt),
          getF_of_le (A ++ _) i (by simp; omega)]

/-! ### The ring-loop invariant -/

/-- Invariant of the construction state after `k` complete rings of the
growth loop, for a board of radius `R`. -/
structure Inv (R : Int) (k : Nat) (st : BState) : Prop where
  flds : st.fields = List.range st.arena.length
  npos : 1 ≤ st.arena.length
  center : (getF st.arena 0).coords = (0, 0)
  ring_lb : ∀ i, i < st.arena.length → 0 ≤ ringOf R st.arena i
  ring_ub : ∀ i, i < st.arena.length → ringOf R st.arena i ≤ (k : Int)
  ring_mono : ∀ i j, i ≤ j → j < st.arena.length →
    ringOf R st.arena i ≤ ringOf R st.arena j
  dist_le : ∀ i, i < st.arena.length →
    (hexDist (getF st.arena i).coords : Int) ≤ ringOf R st.arena i
  link_tgt : ∀ i d j, (getF st.arena i).nbrs.get d = some j →
    j < st.arena.length ∧
      (getF st.arena j).coords =
        ((getF st.arena i).coords.1 + (directionAdjustment d).1,
         (getF st.arena i).coords.2 + (directionAdjustment d).2)
  link_sym : ∀ i d j, (getF st.arena i).nbrs.get d = some j →
    (getF st.arena j).nbrs.get (oppositeDirection d) = some i
  link_ring : ∀ i d j, (getF st.arena i).nbrs.get d = some j →
    ringOf R st.arena j = ringOf R st.arena i + 1 ∨
      ringOf R st.arena i = ringOf R st.arena j + 1
  saturated : ∀ i, i < st.arena.length → ringOf R st.arena i < (k : Int) →
    ∀ d, ((getF st.arena i).nbrs.get d).isSome
  covered : ∀ c : Int × Int, hexDist c ≤ k →
    ∃ i, i < st.arena.length ∧ (getF st.arena i).coords = c ∧
      ringOf R st.arena i = (hexDist c : Int)

theorem getF_nil (i : Nat) : getF [] i = default := by
  unfold getF
  simp

theorem getF_singleton (x : Field) : getF [x] 0 = x := rfl

theorem inv_init (R : Int) :
    Inv R 0 ⟨[⟨(0, 0), R + 1, Nbrs.empty⟩], [0]⟩ := by
  have hget : ∀ i, getF [(⟨(0, 0), R + 1, Nbrs.empty⟩ : Field)] i =
      if i = 0 then ⟨(0, 0), R + 1, Nbrs.empty⟩ else default := by
    intro i
    cases i with
    | zero => rfl
    | succ m =>
      rw [if_neg (Nat.succ_ne_zero m)]
      exact getF_of_le _ _ (by simp)
  have hslot : ∀ i d, (getF [(⟨(0, 0), R + 1, Nbrs.empty⟩ : Field)] i).nbrs.get d
      = none := by
    intro i d
    rw [hget i]
    by_cases hi : i = 0
    · rw [if_pos hi]; exact Nbrs.get_empty d
    · rw [if_neg hi]; exact Nbrs.get_empty d
  have hr0 : ringOf R [(⟨(0, 0), R + 1, Nbrs.empty⟩ : Field)] 0 = 0 := by
    unfold ringOf
    rw [getF_singleton]
    simp
  refine ⟨?_, by simp, rfl, ?_, ?_, ?_, ?_, ?_, ?_, ?_, ?_, ?_⟩
  · show ([0] : List Nat) = List.range 1
    rfl
  · intro i hi
    have h0 : i = 0 := by simpa using hi
    subst h0
    exact hr0.ge
  · intro i hi
    have h0 : i = 0 := by simpa using hi
    subst h0
    exact hr0.le
  · intro i j hij hj
    have h0 : j = 0 := by simpa using hj
    subst h0
    have h1 : i = 0 := Nat.le_zero.mp hij
    subst h1
    exact le_refl _
  · intro i hi
    have h0 : i = 0 := by simpa using hi
    subst h0
    show (hexDist (getF [(⟨(0, 0), R + 1, Nbrs.empty⟩ : Field)] 0).coords : Int) ≤
      ringOf R [(⟨(0, 0), R + 1, Nbrs.empty⟩ : Field)] 0
    rw [getF_singleton, hr0]
    show (hexDist (0, 0) : Int) ≤ 0
    rw [hexDist_center]
    simp
  · intro i d j h
    rw [hslot i d] at h
    exact absurd h (by simp)
  · intro i d j h
    rw [hslot i d] at h
    exact absurd h (by simp)
  · intro i d j h
    rw [hslot i d] at h
    exact absurd h (by simp)
  · intro i hi hring d
    exfalso
    have h0 : i = 0 := by simpa using hi
    subst h0
    have hring2 : ringOf R [(⟨(0, 0), R + 1, Nbrs.empty⟩ : Field)] 0 < 0 := hring
    rw [hr0] at hring2
    exact absurd hring2 (by norm_num)
  · intro c hc
    have hz : hexDist c = 0 := Nat.le_zero.mp hc
    refine ⟨0, by simp, ?_, ?_⟩
    · show (getF [(⟨(0, 0), R + 1, Nbrs.empty⟩ : Field)] 0).coords = c
      rw [getF_singleton]
      exact ((hexDist_eq_zero_iff c).mp hz).symm
    · show ringOf R [(⟨(0, 0), R + 1, Nbrs.empty⟩ : Field)] 0 = (hexDist c : Int)
      rw [hz, hr0]
      simp

theorem default_slot (d : Dir) : (default : Field).nbrs.get d = none :=
  Nbrs.get_empty d

/-- Invariant of the intermediate state (arena plus ring batch) while ring
`k+1` is being grown out of the completed-`k` state with arena `A₀`. -/
structure Mid (R : Int) (k : Nat) (A₀ : Arena) (p : Arena × List Nat) : Prop where
  len_ge : A₀.length ≤ p.1.length
  pres_coords : ∀ i, i < A₀.length → (getF p.1 i).coords = (getF A₀ i).coords
  pres_value : ∀ i, i < A₀.length → (getF p.1 i).value = (getF A₀ i).value
  grow : ∀ i d j, (getF A₀ i).nbrs.get d = some j → (getF p.1 i).nbrs.get d = some j
  new_value : ∀ i, A₀.length ≤ i → i < p.1.length → (getF p.1 i).value = R - (k : Int)
  new_dist : ∀ i, A₀.length ≤ i → i < p.1.length →
    hexDist (getF p.1 i).coords ≤ k + 1
  ring_list : p.2 = List.range' A₀.length (p.1.length - A₀.length)
  link_tgt : ∀ i d j, (getF p.1 i).nbrs.get d = some j →
    j < p.1.length ∧
      (getF p.1 j).coords =
        ((getF p.1 i).coords.1 + (directionAdjustment d).1,
         (getF p.1 i).coords.2 + (directionAdjustment d).2)
  link_sym : ∀ i d j, (getF p.1 i).nbrs.get d = some j →
    (getF p.1 j).nbrs.get (oppositeDirection d) = some i
  link_ring : ∀ i d j, (getF p.1 i).nbrs.get d = some j →
    ringOf R p.1 j = ringOf R p.1 i + 1 ∨ ringOf R p.1 i = ringOf R p.1 j + 1
  old_sat : ∀ i, i < A₀.length → ringOf R A₀ i < (k : Nat) →
    ∀ d, ((getF p.1 i).nbrs.get d).isSome

theorem mid_init (R : Int) (k : Nat) (st : BState) (hInv : Inv R k st) :
    Mid R k st.arena (st.arena, []) := by
  refine ⟨le_refl _, fun i _ => rfl, fun i _ => rfl, fun i d j h => h,
    ?_, ?_, ?_, hInv.link_tgt, hInv.link_sym, hInv.link_ring, ?_⟩
  · intro i h1 h2
    have h3 : i < st.arena.length := h2
    omega
  · intro i h1 h2
    have h3 : i < st.arena.length := h2
    omega
  · simp
  · exact fun i hi hr d => hInv.saturated i hi hr d

theorem mid_spawn (R : Int) (k : Nat) (st₀ : BState) (hInv : Inv R k st₀)
    (fid : Nat) (hfid : fid < st₀.arena.length)
    (p : Arena × List Nat) (hM : Mid R k st₀.arena p) (d : Dir) :
    Mid R k st₀.arena (spawnDir R ((k : Int) + 1) fid p d) := by
  obtain ⟨A, ring⟩ := p
  rcases hsl : (getF A fid).nbrs.get d with _ | j0
  case some =>
    rw [spawnDir_some R ((k : Int) + 1) fid (A, ring) d j0 hsl]
    exact hM
  case none =>
  have hlenge : st₀.arena.length ≤ A.length := hM.len_ge
  have hfidA : fid < A.length := lt_of_lt_of_le hfid hM.len_ge
  have hlen := spawn_length R ((k : Int) + 1) fid A ring d hsl
  have hco := spawn_coords R ((k : Int) + 1) fid A ring d hfidA hsl
  have hva := spawn_value R ((k : Int) + 1) fid A ring d hfidA hsl
  have hsv := spawn_slot R ((k : Int) + 1) fid A ring d hfidA hsl
  have hrg := spawn_ring R ((k : Int) + 1) fid A ring d hsl
  have hro : ∀ i, ringOf R (spawnDir R ((k : Int) + 1) fid (A, ring) d).1 i =
      if i = A.length then (k : Int) + 1 else ringOf R A i := by
    intro i
    unfold ringOf
    rw [hva i]
    by_cases hi : i = A.length
    · rw [if_pos hi, if_pos hi]; ring
    · rw [if_neg hi, if_neg hi]
  have heq : ringOf R A fid = ringOf R st₀.arena fid := by
    unfold ringOf
    rw [hM.pres_value fid hfid]
  have hrfid : ringOf R A fid = (k : Int) := by
    have hub := hInv.ring_ub fid hfid
    by_contra hne
    have hlt : ringOf R st₀.arena fid < (k : Int) := by
      rcases lt_or_eq_of_le hub with h | h
      · exact h
      · exact absurd (heq.trans h) hne
    have hs := hM.old_sat fid hfid hlt d
    rw [hsl] at hs
    simp at hs
  refine ⟨?_, ?_, ?_, ?_, ?_, ?_, ?_, ?_, ?_, ?_, ?_⟩
  · rw [hlen]; omega
  · intro i hi
    rw [hco i, if_neg (by omega : ¬ i = A.length)]
    exact hM.pres_coords i hi
  · intro i hi
    rw [hva i, if_neg (by omega : ¬ i = A.length)]
    exact hM.pres_value i hi
  · intro i d0 j h
    have hA : (getF A i).nbrs.get d0 = some j := hM.grow i d0 j h
    rw [hsv i d0]
    by_cases hc1 : i = fid ∧ d0 = d
    · exfalso
      obtain ⟨h1, h2⟩ := hc1
      have h1s : fid = i := h1.symm
      have h2s : d = d0 := h2.symm
      subst h1s
      subst h2s
      rw [hsl] at hA
      exact absurd hA (by simp)
    · rw [if_neg hc1]
      by_cases hc2 : i = A.length
      · exfalso
        rw [hc2, getF_of_le A A.length (le_refl _), default_slot d0] at hA
        exact absurd hA (by simp)
      · rw [if_neg hc2]; exact hA
  · intro i h1 h2
    rw [hva i]
    by_cases hi : i = A.length
    · rw [if_pos hi]; push_cast; ring
    · rw [if_neg hi]
      exact hM.new_value i h1 (show i < A.length by omega)
  · intro i h1 h2
    rw [hco i]
    by_cases hi : i = A.length
    · rw [if_pos hi]
      have hstep := hexDist_adjacent_le (getF A fid).coords d
      have hc2 : (getF A fid).coords = (getF st₀.arena fid).coords :=
        hM.pres_coords fid hfid
      have hd := hInv.dist_le fid hfid
      have hr2 : ringOf R st₀.arena fid = (k : Int) := by
        rw [← heq]; exact hrfid
      rw [hr2] at hd
      have hdn : hexDist (getF st₀.arena fid).coords ≤ k := by exact_mod_cast hd
      have hdn2 : hexDist (getF A fid).coords ≤ k := by rw [hc2]; exact hdn
      omega
    · rw [if_neg hi]
      exact hM.new_dist i h1 (show i < A.length by omega)
  · have hrl : ring = List.range' st₀.arena.length (A.length - st₀.arena.length) :=
      hM.ring_list
    have h1 : A.length + 1 - st₀.arena.length = (A.length - st₀.arena.length) + 1 := by
      omega
    have h2 : st₀.arena.length + 1 * (A.length - st₀.arena.length) = A.length := by
      omega
    rw [hrg, hlen, h1, List.range'_concat, h2, hrl]
  · intro i d0 j h
    rw [hsv i d0] at h
    by_cases hc1 : i = fid ∧ d0 = d
    · rw [if_pos hc1] at h
      obtain ⟨h1, h2⟩ := hc1
      have h1s : fid = i := h1.symm
      have h2s : d = d0 := h2.symm
      subst h1s
      subst h2s
      have hj : j = A.length := (Option.some.inj h).symm
      subst hj
      constructor
      · omega
      · rw [hco A.length, if_pos rfl, hco fid,
          if_neg (by omega : ¬ fid = A.length)]
    · rw [if_neg hc1] at h
      by_cases hc2 : i = A.length
      · rw [if_pos hc2] at h
        subst hc2
        by_cases hd0 : d0 = oppositeDirection d
        · subst hd0
          rw [Nbrs.get_set_same] at h
          have hj : fid = j := Option.some.inj h
          subst hj
          constructor
          · omega
          · rw [hco fid, if_neg (by omega : ¬ fid = A.length),
              hco A.length, if_pos rfl, directionAdjustment_opposite]
            apply Prod.ext
            · simp
            · simp
        · rw [Nbrs.get_set_ne _ _ _ _ hd0, Nbrs.get_empty] at h
          exact absurd h (by simp)
      · rw [if_neg hc2] at h
        have hjl : j < A.length := (hM.link_tgt i d0 j h).1
        have hjc : (getF A j).coords =
            ((getF A i).coords.1 + (directionAdjustment d0).1,
             (getF A i).coords.2 + (directionAdjustment d0).2) :=
          (hM.link_tgt i d0 j h).2
        constructor
        · omega
        · rw [hco j, if_neg (by omega : ¬ j = A.length), hco i, if_neg hc2]
          exact hjc
  · intro i d0 j h
    rw [hsv i d0] at h
    by_cases hc1 : i = fid ∧ d0 = d
    · rw [if_pos hc1] at h
      obtain ⟨h1, h2⟩ := hc1
      have h1s : fid = i := h1.symm
      have h2s : d = d0 := h2.symm
      subst h1s
      subst h2s
      have hj : j = A.length := (Option.some.inj h).symm
      subst hj
      rw [hsv A.length (oppositeDirection d),
        if_neg (fun hx => absurd hx.1 (by omega : ¬ A.length = fid)),
        if_pos rfl, Nbrs.get_set_same]
    · rw [if_neg hc1] at h
      by_cases hc2 : i = A.length
      · rw [if_pos hc2] at h
        subst hc2
        by_cases hd0 : d0 = oppositeDirection d
        · subst hd0
          rw [Nbrs.get_set_same] at h
          have hj : fid = j := Option.some.inj h
          subst hj
          rw [oppositeDirection_involutive, hsv fid d, if_pos ⟨rfl, rfl⟩]
        · rw [Nbrs.get_set_ne _ _ _ _ hd0, Nbrs.get_empty] at h
          exact absurd h (by simp)
      · rw [if_neg hc2] at h
        have hsym : (getF A j).nbrs.get (oppositeDirection d0) = some i :=
          hM.link_sym i d0 j h
        have hjl : j < A.length := (hM.link_tgt i d0 j h).1
        rw [hsv j (oppositeDirection d0)]
        by_cases hc3 : j = fid ∧ oppositeDirection d0 = d
        · exfalso
          obtain ⟨h1, h2⟩ := hc3
          have h1s : fid = j := h1.symm
          subst h1s
          have hd0e : d0 = oppositeDirection d := by
            rw [← h2, oppositeDirection_involutive]
          subst hd0e
          rw [oppositeDirection_involutive, hsl] at hsym
          exact absurd hsym (by simp)
        · rw [if_neg hc3, if_neg (by omega : ¬ j = A.length)]
          exact hsym
  · intro i d0 j h
    rw [hsv i d0] at h
    by_cases hc1 : i = fid ∧ d0 = d
    · rw [if_pos hc1] at h
      obtain ⟨h1, h2⟩ := hc1
      have h1s : fid = i := h1.symm
      have h2s : d = d0 := h2.symm
      subst h1s
      subst h2s
      have hj : j = A.length := (Option.some.inj h).symm
      subst hj
      left
      rw [hro A.length, if_pos rfl, hro fid,
        if_neg (by omega : ¬ fid = A.length), hrfid]
    · rw [if_neg hc1] at h
      by_cases hc2 : i = A.length
      · rw [if_pos hc2] at h
        subst hc2
        by_cases hd0 : d0 = oppositeDirection d
        · subst hd0
          rw [Nbrs.get_set_same] at h
          have hj : fid = j := Option.some.inj h
          subst hj
          right
          rw [hro A.length, if_pos rfl, hro fid,
            if_neg (by omega : ¬ fid = A.length), hrfid]
        · rw [Nbrs.get_set_ne _ _ _ _ hd0, Nbrs.get_empty] at h
          exact absurd h (by simp)
      · rw [if_neg hc2] at h
        have hjl : j < A.length := (hM.link_tgt i d0 j h).1
        rw [hro i, if_neg hc2, hro j, if_neg (by omega : ¬ j = A.length)]
        exact hM.link_ring i d0 j h
  · intro i hi hr d0
    have hA : ((getF A i).nbrs.get d0).isSome := hM.old_sat i hi hr d0
    rw [hsv i d0]
    by_cases hc1 : i = fid ∧ d0 = d
    · exfalso
      obtain ⟨h1, h2⟩ := hc1
      have h1s : fid = i := h1.symm
      have h2s : d = d0 := h2.symm
      subst h1s
      subst h2s
      rw [hsl] at hA
      simp at hA
    · rw [if_neg hc1]
      by_cases hc2 : i = A.length
      · exfalso
        omega
      · rw [if_neg hc2]
        exact hA

/-! ### Monotonicity of the growth folds -/

theorem spawnDir_len_le (radius r : Int) (fid : Nat) (st : Arena × List Nat)
    (d : Dir) : st.1.length ≤ (spawnDir radius r fid st d).1.length := by
  obtain ⟨A, ring⟩ := st
  rcases hsl : (getF A fid).nbrs.get d with _ | j
  · rw [spawnDir_none radius r fid A ring d hsl]
    show A.length ≤ (setNbr _ _ _ _).length
    rw [length_setNbr]
    simp
  · rw [spawnDir_some radius r fid (A, ring) d j hsl]

theorem spawn_slot_mono (radius r : Int) (fid : Nat) (st : Arena × List Nat)
    (d : Dir) (hfid : fid < st.1.length) (i : Nat) (e : Dir) (j : Nat)
    (h : (getF st.1 i).nbrs.get e = some j) :
    (getF (spawnDir radius r fid st d).1 i).nbrs.get e = some j := by
  obtain ⟨A, ring⟩ := st
  rcases hsl : (getF A fid).nbrs.get d with _ | j0
  · rw [spawn_slot radius r fid A ring d hfid hsl i e]
    by_cases hc1 : i = fid ∧ e = d
    · exfalso
      obtain ⟨h1, h2⟩ := hc1
      rw [h1, h2] at h
      rw [hsl] at h
      exact absurd h (by simp)
    · rw [if_neg hc1]
      by_cases hc2 : i = A.length
      · exfalso
        rw [hc2, getF_of_le A A.length (le_refl _), default_slot e] at h
        exact absurd h (by simp)
      · rw [if_neg hc2]
        exact h
  · rw [spawnDir_some radius r fid (A, ring) d j0 hsl]
    exact h

theorem foldl_spawn_len_le (radius r : Int) (fid : Nat) (ds : List Dir)
    (st : Arena × List Nat) :
    st.1.length ≤ (ds.foldl (spawnDir radius r fid) st).1.length := by
  induction ds generalizing st with
  | nil => exact le_refl _
  | cons d ds ih =>
    exact le_trans (spawnDir_len_le radius r fid st d) (ih _)

theorem foldl_spawn_slot_mono (radius r : Int) (fid : Nat) (ds : List Dir)
    (st : Arena × List Nat) (hfid : fid < st.1.length) (i : Nat) (e : Dir) (j : Nat)
    (h : (getF st.1 i).nbrs.get e = some j) :
    (getF (ds.foldl (spawnDir radius r fid) st).1 i).nbrs.get e = some j := by
  induction ds generalizing st with
  | nil => exact h
  | cons d ds ih =>
    exact ih _ (lt_of_lt_of_le hfid (spawnDir_len_le radius r fid st d))
      (spawn_slot_mono radius r fid st d hfid i e j h)

theorem processField_len_le (radius r : Int) (p : Arena × List Nat) (fid : Nat) :
    p.1.length ≤ (processField radius r p fid).1.length :=
  foldl_spawn_len_le radius r fid dirList p

theorem processField_slot_mono (radius r : Int) (p : Arena × List Nat) (fid : Nat)
    (hfid : fid < p.1.length) (i : Nat) (e : Dir) (j : Nat)
    (h : (getF p.1 i).nbrs.get e = some j) :
    (getF (processField radius r p fid).1 i).nbrs.get e = some j :=
  foldl_spawn_slot_mono radius r fid dirList p hfid i e j h

theorem foldl_fields_len_le (radius r : Int) (l : List Nat) (p : Arena × List Nat) :
    p.1.length ≤ (l.foldl (processField radius r) p).1.length := by
  induction l generalizing p with
  | nil => exact le_refl _
  | cons x l ih =>
    exact le_trans (processField_len_le radius r p x) (ih _)

theorem foldl_fields_slot_mono (radius r : Int) (l : List Nat)
    (p : Arena × List Nat) (n₀ : Nat) (hn : n₀ ≤ p.1.length)
    (hl : ∀ x ∈ l, x < n₀) (i : Nat) (e : Dir) (j : Nat)
    (h : (getF p.1 i).nbrs.get e = some j) :
    (getF (l.foldl (processField radius r) p).1 i).nbrs.get e = some j := by
  induction l generalizing p with
  | nil => exact h
  | cons x l ih =>
    refine ih (processField radius r p x)
      (le_trans hn (processField_len_le radius r p x))
      (fun y hy => hl y (List.mem_cons_of_mem x hy)) ?_
    exact processField_slot_mono radius r p x
      (lt_of_lt_of_le (hl x (List.mem_cons_self x l)) hn) i e j h

/-! ### Processing one field saturates it -/

theorem mid_foldl_dirs (R : Int) (k : Nat) (st₀ : BState) (hInv : Inv R k st₀)
    (fid : Nat) (hfid : fid < st₀.arena.length) (ds : List Dir)
    (p : Arena × List Nat) (hM : Mid R k st₀.arena p) :
    Mid R k st₀.arena (ds.foldl (spawnDir R ((k : Int) + 1) fid) p) ∧
      ∀ d ∈ ds,
        ((getF (ds.foldl (spawnDir R ((k : Int) + 1) fid) p).1 fid).nbrs.get d).isSome := by
  induction ds generalizing p with
  | nil => exact ⟨hM, by simp⟩
  | cons d ds ih =>
    have hM1 : Mid R k st₀.arena (spawnDir R ((k : Int) + 1) fid p d) :=
      mid_spawn R k st₀ hInv fid hfid p hM d
    have hsat1 : ((getF (spawnDir R ((k : Int) + 1) fid p d).1 fid).nbrs.get d).isSome := by
      obtain ⟨A, ring⟩ := p
      rcases hsl : (getF A fid).nbrs.get d with _ | j0
      · rw [spawn_slot R ((k : Int) + 1) fid A ring d
          (lt_of_lt_of_le hfid hM.len_ge) hsl fid d, if_pos ⟨rfl, rfl⟩]
        simp
      · rw [spawnDir_some R ((k : Int) + 1) fid (A, ring) d j0 hsl, hsl]
        simp
    obtain ⟨hM2, hsat2⟩ := ih (spawnDir R ((k : Int) + 1) fid p d) hM1
    refine ⟨hM2, ?_⟩
    intro e he
    rw [List.foldl_cons]
    rcases List.mem_cons.mp he with he1 | he2
    · rw [he1]
      obtain ⟨j1, hj1⟩ := Option.isSome_iff_exists.mp hsat1
      have hpers := foldl_spawn_slot_mono R ((k : Int) + 1) fid ds
        (spawnDir R ((k : Int) + 1) fid p d)
        (lt_of_lt_of_le hfid hM1.len_ge) fid d j1 hj1
      rw [hpers]
      simp
    · exact hsat2 e he2

theorem mid_processField (R : Int) (k : Nat) (st₀ : BState) (hInv : Inv R k st₀)
    (fid : Nat) (hfid : fid < st₀.arena.length)
    (p : Arena × List Nat) (hM : Mid R k st₀.arena p) :
    Mid R k st₀.arena (processField R ((k : Int) + 1) p fid) ∧
      ∀ d, ((getF (processField R ((k : Int) + 1) p fid).1 fid).nbrs.get d).isSome := by
  obtain ⟨h1, h2⟩ := mid_foldl_dirs R k st₀ hInv fid hfid dirList p hM
  exact ⟨h1, fun d => h2 d (mem_dirList d)⟩

/-! ### The per-ring field scan -/

theorem mid_fold_fields (R : Int) (k : Nat) (st₀ : BState) (hInv : Inv R k st₀)
    (l : List Nat) (hl : ∀ x ∈ l, x < st₀.arena.length)
    (p : Arena × List Nat) (hM : Mid R k st₀.arena p) :
    Mid R k st₀.arena (l.foldl (processField R ((k : Int) + 1)) p) ∧
      ∀ x ∈ l, ∀ d,
        ((getF ((l.foldl (processField R ((k : Int) + 1)) p)).1 x).nbrs.get d).isSome := by
  induction l generalizing p with
  | nil => exact ⟨hM, by simp⟩
  | cons x l ih =>
    have hx : x < st₀.arena.length := hl x (List.mem_cons_self x l)
    obtain ⟨hM1, hsat1⟩ := mid_processField R k st₀ hInv x hx p hM
    obtain ⟨hM2, hsat2⟩ :=
      ih (fun y hy => hl y (List.mem_cons_of_mem x hy)) (processField R ((k : Int) + 1) p x) hM1
    refine ⟨hM2, ?_⟩
    intro y hy d
    rw [List.foldl_cons]
    rcases List.mem_cons.mp hy with hy1 | hy2
    · rw [hy1]
      obtain ⟨j1, hj1⟩ := Option.isSome_iff_exists.mp (hsat1 d)
      have hpers := foldl_fields_slot_mono R ((k : Int) + 1) l
        (processField R ((k : Int) + 1) p x) st₀.arena.length
        (le_trans hM1.len_ge (le_refl _)) (fun y hy => hl y (List.mem_cons_of_mem x hy))
        x d j1 hj1
      rw [hpers]
      simp
    · exact hsat2 y hy2 d

/-! ### The ring step preserves the invariant -/

theorem inv_doRing (R : Int) (k : Nat) (st : BState) (hInv : Inv R k st) :
    Inv R (k + 1) (doRing R st ((k : Int) + 1)) := by
  have hflds := hInv.flds
  have hl : ∀ x ∈ st.fields, x < st.arena.length := by
    intro x hx
    rw [hflds] at hx
    exact List.mem_range.mp hx
  obtain ⟨hM, hsat⟩ := mid_fold_fields R k st hInv st.fields hl (st.arena, [])
    (mid_init R k st hInv)
  set p := st.fields.foldl (processField R ((k : Int) + 1)) (st.arena, []) with hp
  have hsat2 : ∀ i, i < st.arena.length → ∀ d, ((getF p.1 i).nbrs.get d).isSome := by
    intro i hi d
    exact hsat i (by rw [hflds]; exact List.mem_range.mpr hi) d
  have hle : st.arena.length ≤ p.1.length := hM.len_ge
  have hrold : ∀ i, i < st.arena.length → ringOf R p.1 i = ringOf R st.arena i := by
    intro i hi
    unfold ringOf
    rw [hM.pres_value i hi]
  have hrnew : ∀ i, st.arena.length ≤ i → i < p.1.length →
      ringOf R p.1 i = (k : Int) + 1 := by
    intro i h1 h2
    unfold ringOf
    rw [hM.new_value i h1 h2]
    ring
  have hrlb : ∀ i, i < p.1.length → 0 ≤ ringOf R p.1 i := by
    intro i hi
    by_cases hio : i < st.arena.length
    · rw [hrold i hio]; exact hInv.ring_lb i hio
    · rw [hrnew i (Nat.le_of_not_lt hio) hi]; omega
  have hrub : ∀ i, i < p.1.length → ringOf R p.1 i ≤ (k : Int) + 1 := by
    intro i hi
    by_cases hio : i < st.arena.length
    · rw [hrold i hio]
      have := hInv.ring_ub i hio
      omega
    · rw [hrnew i (Nat.le_of_not_lt hio) hi]
  have hdle : ∀ i, i < p.1.length →
      (hexDist (getF p.1 i).coords : Int) ≤ ringOf R p.1 i := by
    intro i hi
    by_cases hio : i < st.arena.length
    · rw [hrold i hio, hM.pres_coords i hio]
      exact hInv.dist_le i hio
    · rw [hrnew i (Nat.le_of_not_lt hio) hi]
      have := hM.new_dist i (Nat.le_of_not_lt hio) hi
      omega
  have hcov : ∀ c : Int × Int, hexDist c ≤ k + 1 →
      ∃ i, i < p.1.length ∧ (getF p.1 i).coords = c ∧
        ringOf R p.1 i = (hexDist c : Int) := by
    intro c hc
    by_cases hck : hexDist c ≤ k
    · obtain ⟨i₀, hi₀, hco₀, hr₀⟩ := hInv.covered c hck
      exact ⟨i₀, by omega, by rw [hM.pres_coords i₀ hi₀]; exact hco₀,
        by rw [hrold i₀ hi₀]; exact hr₀⟩
    · have hck1 : hexDist c = k + 1 := by omega
      obtain ⟨d, hd⟩ := hexDist_step_down c (by omega)
      set c₀ : Int × Int :=
        (c.1 + (directionAdjustment d).1, c.2 + (directionAdjustment d).2) with hc₀
      have hdist₀ : hexDist c₀ = k := by omega
      obtain ⟨i₀, hi₀, hco₀, hr₀⟩ := hInv.covered c₀ (by omega)
      have hs := hsat2 i₀ hi₀ (oppositeDirection d)
      obtain ⟨j, hj⟩ := Option.isSome_iff_exists.mp hs
      have htgt := hM.link_tgt i₀ (oppositeDirection d) j hj
      obtain ⟨hjl, hjc⟩ := htgt
      have hico : (getF p.1 i₀).coords = c₀ := by
        rw [hM.pres_coords i₀ hi₀]
        exact hco₀
      have hjc2 : (getF p.1 j).coords = c := by
        rw [hjc, hico, directionAdjustment_opposite]
        apply Prod.ext
        · simp [hc₀]
        · simp [hc₀]
      refine ⟨j, hjl, hjc2, ?_⟩
      have h1 := hdle j hjl
      have h2 := hrub j hjl
      rw [hjc2] at h1
      omega
  have hflds2 : st.fields ++ p.2 = List.range p.1.length := by
    have hrl : p.2 = List.range' st.arena.length (p.1.length - st.arena.length) :=
      hM.ring_list
    have hsplit : p.1.length = st.arena.length + (p.1.length - st.arena.length) := by
      omega
    rw [hflds, hrl, hsplit, List.range_add]
    congr 1
    rw [List.range'_eq_map_range]
    have harg : st.arena.length + (p.1.length - st.arena.length) -
        st.arena.length = p.1.length - st.arena.length := by omega
    rw [harg]
  have hnpos2 : 1 ≤ p.1.length := by
    have := hInv.npos
    omega
  have hcenter2 : (getF p.1 0).coords = (0, 0) := by
    rw [hM.pres_coords 0 (by have := hInv.npos; omega)]
    exact hInv.center
  have hrub2 : ∀ i, i < p.1.length → ringOf R p.1 i ≤ ((k + 1 : Nat) : Int) := by
    intro i hi
    have := hrub i hi
    push_cast
    omega
  have hmono2 : ∀ i j, i ≤ j → j < p.1.length → ringOf R p.1 i ≤ ringOf R p.1 j := by
    intro i j hij hj
    by_cases hjo : j < st.arena.length
    · rw [hrold i (by omega), hrold j hjo]
      exact hInv.ring_mono i j hij hjo
    · rw [hrnew j (Nat.le_of_not_lt hjo) hj]
      exact le_trans (hrub i (by omega)) (le_refl _)
  have hsat3 : ∀ i, i < p.1.length → ringOf R p.1 i < ((k + 1 : Nat) : Int) →
      ∀ d, ((getF p.1 i).nbrs.get d).isSome := by
    intro i hi hring d
    have hio : i < st.arena.length := by
      by_contra hio
      rw [hrnew i (Nat.le_of_not_lt hio) hi] at hring
      push_cast at hring
      omega
    exact hsat2 i hio d
  exact ⟨hflds2, hnpos2, hcenter2, hrlb, hrub2, hmono2, hdle,
    hM.link_tgt, hM.link_sym, hM.link_ring, hsat3, hcov⟩

/-! ### The invariant holds after all rings -/

theorem inv_fold_rings (R : Int) (m : Nat) :
    Inv R m
      (((List.range m).map (fun k : Nat => (k : Int) + 1)).foldl (doRing R)
        ⟨[⟨(0, 0), R + 1, Nbrs.empty⟩], [0]⟩) := by
  induction m with
  | zero => exact inv_init R
  | succ m ih =>
    rw [List.range_succ, List.map_append, List.foldl_append]
    exact inv_doRing R m _ ih

theorem inv_buildState (R : Int) : Inv R R.toNat (buildState R) := by
  unfold buildState ringIndices
  exact inv_fold_rings R R.toNat

/-! ### Facts about the completed growth state -/

theorem inv_dist_bounded (R : Int) (N : Nat) (st : BState) (hI : Inv R N st)
    (i : Nat) (hi : i < st.arena.length) :
    hexDist (getF st.arena i).coords ≤ N := by
  have h1 := hI.dist_le i hi
  have h2 := hI.ring_ub i hi
  omega

/-- The first object at its coordinate was created in ring `hexDist c`. -/
theorem inv_first_ring (R : Int) (N : Nat) (st : BState) (hI : Inv R N st)
    (i : Nat) (hi : i < st.arena.length)
    (hfirst : ∀ j, j < i → (getF st.arena j).coords ≠ (getF st.arena i).coords) :
    ringOf R st.arena i = (hexDist (getF st.arena i).coords : Int) := by
  obtain ⟨i₀, hi₀, hc₀, hr₀⟩ :=
    hI.covered (getF st.arena i).coords (inv_dist_bounded R N st hI i hi)
  rcases Nat.lt_or_ge i₀ i with hlt | hge
  · exact absurd hc₀ (hfirst i₀ hlt)
  · have hmono := hI.ring_mono i i₀ hge hi₀
    have hd := hI.dist_le i hi
    omega

/-- No link between two rim objects ever exists in the grown state. -/
theorem inv_rim_slot_none (R : Int) (N : Nat) (st : BState) (hI : Inv R N st)
    (i : Nat) (d : Dir) (hi : i < st.arena.length)
    (h1 : hexDist (getF st.arena i).coords = N)
    (h2 : hexDist ((getF st.arena i).coords.1 + (directionAdjustment d).1,
      (getF st.arena i).coords.2 + (directionAdjustment d).2) = N) :
    (getF st.arena i).nbrs.get d = none := by
  rcases hsl : (getF st.arena i).nbrs.get d with _ | j
  · rfl
  · exfalso
    obtain ⟨hjl, hjc⟩ := hI.link_tgt i d j hsl
    have hrj1 := hI.dist_le j hjl
    have hrj2 := hI.ring_ub j hjl
    have hri1 := hI.dist_le i hi
    have hri2 := hI.ring_ub i hi
    rw [hjc] at hrj1
    have := hI.link_ring i d j hsl
    omega

/-- No link points outside the hexagon. -/
theorem inv_out_slot_none (R : Int) (N : Nat) (st : BState) (hI : Inv R N st)
    (i : Nat) (d : Dir)
    (h2 : N < hexDist ((getF st.arena i).coords.1 + (directionAdjustment d).1,
      (getF st.arena i).coords.2 + (directionAdjustment d).2)) :
    (getF st.arena i).nbrs.get d = none := by
  rcases hsl : (getF st.arena i).nbrs.get d with _ | j
  · rfl
  · exfalso
    obtain ⟨hjl, hjc⟩ := hI.link_tgt i d j hsl
    have := inv_dist_bounded R N st hI j hjl
    rw [hjc] at this
    omega

/-- For any in-hexagon coordinate `c` and direction `d` whose target is
strictly inside the hexagon, some object at `c` carries the `d` link. -/
theorem inv_slot_filled (R : Int) (N : Nat) (st : BState) (hI : Inv R N st)
    (c : Int × Int) (d : Dir)
    (hc2 : hexDist (c.1 + (directionAdjustment d).1,
      c.2 + (directionAdjustment d).2) < N) :
    ∃ i, i < st.arena.length ∧ (getF st.arena i).coords = c ∧
      ((getF st.arena i).nbrs.get d).isSome := by
  obtain ⟨i₀, hi₀, hc₀, hr₀⟩ := hI.covered
    (c.1 + (directionAdjustment d).1, c.2 + (directionAdjustment d).2) (by omega)
  have hsat := hI.saturated i₀ hi₀ (by omega) (oppositeDirection d)
  obtain ⟨j, hj⟩ := Option.isSome_iff_exists.mp hsat
  obtain ⟨hjl, hjc⟩ := hI.link_tgt i₀ (oppositeDirection d) j hj
  have hjc2 : (getF st.arena j).coords = c := by
    rw [hjc, hc₀, directionAdjustment_opposite]
    apply Prod.ext
    · simp
    · simp
  have hback := hI.link_sym i₀ (oppositeDirection d) j hj
  rw [oppositeDirection_involutive] at hback
  exact ⟨j, hjl, hjc2, by rw [hback]; simp⟩

/-! ### Description of the duplicate-merging step -/

theorem mergeNbrs_go (e fid : Nat) (hne : fid ≠ e) (ds : List Dir) (A : Arena)
    (he : e < A.length) :
    (ds.foldl
      (fun A d =>
        match (getF A e).nbrs.get d with
        | some _ => A
        | none => setNbr A e d ((getF A fid).nbrs.get d)) A).length = A.length ∧
    (∀ i, i ≠ e →
      getF (ds.foldl
        (fun A d =>
          match (getF A e).nbrs.get d with
          | some _ => A
          | none => setNbr A e d ((getF A fid).nbrs.get d)) A) i = getF A i) ∧
    (getF (ds.foldl
        (fun A d =>
          match (getF A e).nbrs.get d with
          | some _ => A
          | none => setNbr A e d ((getF A fid).nbrs.get d)) A) e).coords =
      (getF A e).coords ∧
    (getF (ds.foldl
        (fun A d =>
          match (getF A e).nbrs.get d with
          | some _ => A
          | none => setNbr A e d ((getF A fid).nbrs.get d)) A) e).value =
      (getF A e).value ∧
    (∀ d, (getF (ds.foldl
        (fun A d =>
          match (getF A e).nbrs.get d with
          | some _ => A
          | none => setNbr A e d ((getF A fid).nbrs.get d)) A) e).nbrs.get d =
      if d ∈ ds then ((getF A e).nbrs.get d).or ((getF A fid).nbrs.get d)
      else (getF A e).nbrs.get d) := by
  induction ds generalizing A with
  | nil =>
    refine ⟨rfl, fun i _ => rfl, rfl, rfl, ?_⟩
    intro d
    simp
  | cons d0 ds ih =>
    rw [List.foldl_cons]
    set A1 := (match (getF A e).nbrs.get d0 with
      | some _ => A
      | none => setNbr A e d0 ((getF A fid).nbrs.get d0)) with hA1
    have hstep_len : A1.length = A.length := by
      rw [hA1]
      rcases (getF A e).nbrs.get d0 with _ | x
      · exact length_setNbr A e d0 _
      · rfl
    have hstep_ne : ∀ i, i ≠ e → getF A1 i = getF A i := by
      intro i hi
      rw [hA1]
      rcases (getF A e).nbrs.get d0 with _ | x
      · exact getF_setNbr_ne A e i d0 _ hi
      · rfl
    have hstep_co : (getF A1 e).coords = (getF A e).coords := by
      rw [hA1]
      rcases (getF A e).nbrs.get d0 with _ | x
      · exact coords_setNbr A e e d0 _
      · rfl
    have hstep_va : (getF A1 e).value = (getF A e).value := by
      rw [hA1]
      rcases (getF A e).nbrs.get d0 with _ | x
      · exact value_setNbr A e e d0 _
      · rfl
    have hstep_slot : ∀ d, (getF A1 e).nbrs.get d =
        if d = d0 then ((getF A e).nbrs.get d0).or ((getF A fid).nbrs.get d0)
        else (getF A e).nbrs.get d := by
      intro d
      rw [hA1]
      rcases hx : (getF A e).nbrs.get d0 with _ | x
      · rw [nbrs_setNbr A e e d0 d _ he]
        by_cases hd : d = d0
        · rw [if_pos ⟨rfl, hd⟩, if_pos hd]
          rfl
        · rw [if_neg (fun hh => hd hh.2), if_neg hd]
      · by_cases hd : d = d0
        · rw [if_pos hd, hd, hx]
          rfl
        · rw [if_neg hd]
    have hstep_fid : getF A1 fid = getF A fid := hstep_ne fid hne
    obtain ⟨ih_len, ih_ne, ih_co, ih_va, ih_slot⟩ :=
      ih A1 (by rw [hstep_len]; exact he)
    refine ⟨by rw [ih_len, hstep_len], ?_, ?_, ?_, ?_⟩
    · intro i hi
      rw [ih_ne i hi, hstep_ne i hi]
    · rw [ih_co, hstep_co]
    · rw [ih_va, hstep_va]
    · intro d
      rw [ih_slot d]
      by_cases hmem : d ∈ ds
      · rw [if_pos hmem, if_pos (List.mem_cons_of_mem d0 hmem), hstep_fid,
          hstep_slot d]
        by_cases hd : d = d0
        · rw [if_pos hd, hd]
          rcases (getF A e).nbrs.get d0 with _ | x
          · rcases (getF A fid).nbrs.get d0 with _ | y
            · rfl
            · rfl
          · rfl
        · rw [if_neg hd]
      · rw [if_neg hmem, hstep_slot d]
        by_cases hd : d = d0
        · rw [if_pos hd, if_pos (by rw [hd]; exact List.mem_cons_self d0 ds), hd]
        · rw [if_neg hd, if_neg (by
            intro hc
            rcases List.mem_cons.mp hc with h1 | h2
            · exact hd h1
            · exact hmem h2)]

theorem mergeNbrs_length (A : Arena) (e fid : Nat) (hne : fid ≠ e)
    (he : e < A.length) : (mergeNbrs A e fid).length = A.length :=
  (mergeNbrs_go e fid hne dirList A he).1

theorem mergeNbrs_getF_ne (A : Arena) (e fid : Nat) (hne : fid ≠ e)
    (he : e < A.length) (i : Nat) (hi : i ≠ e) :
    getF (mergeNbrs A e fid) i = getF A i :=
  (mergeNbrs_go e fid hne dirList A he).2.1 i hi

theorem mergeNbrs_coords (A : Arena) (e fid : Nat) (hne : fid ≠ e)
    (he : e < A.length) (i : Nat) :
    (getF (mergeNbrs A e fid) i).coords = (getF A i).coords := by
  by_cases hi : i = e
  · rw [hi]
    exact (mergeNbrs_go e fid hne dirList A he).2.2.1
  · rw [mergeNbrs_getF_ne A e fid hne he i hi]

theorem mergeNbrs_value (A : Arena) (e fid : Nat) (hne : fid ≠ e)
    (he : e < A.length) (i : Nat) :
    (getF (mergeNbrs A e fid) i).value = (getF A i).value := by
  by_cases hi : i = e
  · rw [hi]
    exact (mergeNbrs_go e fid hne dirList A he).2.2.2.1
  · rw [mergeNbrs_getF_ne A e fid hne he i hi]

theorem mergeNbrs_slot (A : Arena) (e fid : Nat) (hne : fid ≠ e)
    (he : e < A.length) (i : Nat) (d : Dir) :
    (getF (mergeNbrs A e fid) i).nbrs.get d =
      if i = e then ((getF A e).nbrs.get d).or ((getF A fid).nbrs.get d)
      else (getF A i).nbrs.get d := by
  by_cases hi : i = e
  · rw [hi, if_pos rfl]
    unfold mergeNbrs
    have := (mergeNbrs_go e fid hne dirList A he).2.2.2.2 d
    rw [this, if_pos (mem_dirList d)]
  · rw [if_neg hi, mergeNbrs_getF_ne A e fid hne he i hi]

/-! ### The merge-pass invariant -/

theorem option_or_isSome_left {a b : Option Nat} (h : a.isSome) :
    (a.or b).isSome := by
  rcases a with _ | x
  · simp at h
  · rfl

theorem option_or_isSome_right {a b : Option Nat} (h : b.isSome) :
    (a.or b).isSome := by
  rcases a with _ | x
  · exact h
  · rfl

theorem option_or_eq_some {a b : Option Nat} {j : Nat} (h : a.or b = some j) :
    a = some j ∨ (a = none ∧ b = some j) := by
  rcases a with _ | x
  · right; exact ⟨rfl, h⟩
  · left; exact h

theorem mergeStep_eq (A : Arena) (finals : List Nat) (fid : Nat) :
    mergeStep (.ok (A, finals)) fid =
      match finals.filter (fun f => (getF A f).coords = (getF A fid).coords) with
      | [] => .ok (A, finals ++ [fid])
      | [e] => .ok (mergeNbrs A e fid, finals)
      | _ :: _ :: _ => .error () := rfl

/-- Invariant of the merge pass after the first `m` entries of the grown
field list (arena `A₀`) have been scanned; `s` is the current arena and
`final_fields` list. -/
structure MInv2 (N : Nat) (A₀ : Arena) (m : Nat) (s : Arena × List Nat) : Prop where
  len_eq : s.1.length = A₀.length
  coords_eq : ∀ i, (getF s.1 i).coords = (getF A₀ i).coords
  value_eq : ∀ i, (getF s.1 i).value = (getF A₀ i).value
  slot_grow : ∀ i d j, (getF A₀ i).nbrs.get d = some j →
    (getF s.1 i).nbrs.get d = some j
  nonfinal_eq : ∀ i, i ∉ s.2 → (getF s.1 i).nbrs = (getF A₀ i).nbrs
  finals_lt : ∀ f ∈ s.2, f < m
  finals_first : ∀ f ∈ s.2, ∀ j, j < f →
    (getF A₀ j).coords ≠ (getF A₀ f).coords
  finals_nodupc : s.2.Pairwise (fun f g => (getF A₀ f).coords ≠ (getF A₀ g).coords)
  finals_cover : ∀ i, i < m → ∃ f ∈ s.2, (getF A₀ f).coords = (getF A₀ i).coords
  slot_transfer : ∀ i, i < m → ∀ d, ((getF A₀ i).nbrs.get d).isSome →
    ∀ f ∈ s.2, (getF A₀ f).coords = (getF A₀ i).coords →
      ((getF s.1 f).nbrs.get d).isSome
  link_tgt2 : ∀ i d j, (getF s.1 i).nbrs.get d = some j →
    j < A₀.length ∧
      (getF s.1 j).coords =
        ((getF s.1 i).coords.1 + (directionAdjustment d).1,
         (getF s.1 i).coords.2 + (directionAdjustment d).2)
  coordsym : ∀ i d j, (getF s.1 i).nbrs.get d = some j →
    ∃ x, (getF s.1 j).nbrs.get (oppositeDirection d) = some x ∧
      (getF s.1 x).coords = (getF s.1 i).coords
  rimnone : ∀ i d, hexDist (getF s.1 i).coords = N →
    hexDist ((getF s.1 i).coords.1 + (directionAdjustment d).1,
      (getF s.1 i).coords.2 + (directionAdjustment d).2) = N →
    (getF s.1 i).nbrs.get d = none

theorem minv2_init (R : Int) (N : Nat) (st : BState) (hI : Inv R N st)
    (hN : 1 ≤ N) : MInv2 N st.arena 0 (st.arena, []) := by
  refine ⟨rfl, fun i => rfl, fun i => rfl, fun i d j h => h, fun i _ => rfl,
    by simp, by simp, by simp, by omega, by omega, hI.link_tgt, ?_, ?_⟩
  · intro i d j h
    exact ⟨i, hI.link_sym i d j h, rfl⟩
  · intro i d h1 h2
    by_cases hi : i < st.arena.length
    · exact inv_rim_slot_none R N st hI i d hi h1 h2
    · exfalso
      rw [getF_of_le st.arena i (Nat.le_of_not_lt hi)] at h1
      rw [show (default : Field).coords = ((0 : Int), (0 : Int)) from rfl,
        hexDist_center] at h1
      omega

theorem minv2_step (N : Nat) (A₀ : Arena) (m : Nat) (s : Arena × List Nat)
    (hm : m < A₀.length) (hs : MInv2 N A₀ m s) :
    ∃ s2, mergeStep (.ok s) m = .ok s2 ∧ MInv2 N A₀ (m + 1) s2 := by
  obtain ⟨A, finals⟩ := s
  have hlen : A.length = A₀.length := hs.len_eq
  have hcoe : ∀ i, (getF A i).coords = (getF A₀ i).coords := hs.coords_eq
  have hfin_lt : ∀ f ∈ finals, f < m := hs.finals_lt
  have hnodup : finals.Pairwise (fun f g => (getF A₀ f).coords ≠ (getF A₀ g).coords) :=
    hs.finals_nodupc
  rcases hfil : finals.filter (fun f => (getF A f).coords = (getF A m).coords)
    with _ | ⟨e1, _ | ⟨e2, rest⟩⟩
  · -- no existing field at this coordinate: append
    have hempty : ∀ f ∈ finals, (getF A₀ f).coords ≠ (getF A₀ m).coords := by
      intro f hf hcon
      have : (getF A f).coords = (getF A m).coords := by
        rw [hcoe f, hcoe m]; exact hcon
      have hmem : f ∈ finals.filter
          (fun f => (getF A f).coords = (getF A m).coords) := by
        rw [List.mem_filter]
        exact ⟨hf, by simp [this]⟩
      rw [hfil] at hmem
      simp at hmem
    refine ⟨(A, finals ++ [m]), ?_, ?_⟩
    · rw [mergeStep_eq, hfil]
    refine ⟨hs.len_eq, hs.coords_eq, hs.value_eq, hs.slot_grow, ?_, ?_, ?_, ?_,
      ?_, ?_, hs.link_tgt2, hs.coordsym, hs.rimnone⟩
    · intro i hi
      exact hs.nonfinal_eq i (fun hmem => hi (List.mem_append_left [m] hmem))
    · intro f hf
      rcases List.mem_append.mp hf with h1 | h2
      · have := hfin_lt f h1; omega
      · have : f = m := by simpa using h2
        omega
    · intro f hf j hj
      rcases List.mem_append.mp hf with h1 | h2
      · exact hs.finals_first f h1 j hj
      · have hfm : f = m := by simpa using h2
        rw [hfm] at hj ⊢
        intro hcon
        obtain ⟨g, hg, hgc⟩ := hs.finals_cover j (by omega)
        exact hempty g hg (by rw [hgc]; exact hcon)
    · rw [List.pairwise_append]
      refine ⟨hnodup, by simp, ?_⟩
      intro a ha b hb
      have hbm : b = m := by simpa using hb
      rw [hbm]
      exact hempty a ha
    · intro i hi
      rcases Nat.lt_or_ge i m with h1 | h1
      · obtain ⟨f, hf, hfc⟩ := hs.finals_cover i h1
        exact ⟨f, List.mem_append_left [m] hf, hfc⟩
      · have him : i = m := by omega
        refine ⟨m, List.mem_append_right finals (by simp), ?_⟩
        rw [him]
    · intro i hi d hiso f hf hfc
      rcases List.mem_append.mp hf with h1 | h2
      · rcases Nat.lt_or_ge i m with hi1 | hi1
        · exact hs.slot_transfer i hi1 d hiso f h1 hfc
        · exfalso
          have him : i = m := by omega
          exact hempty f h1 (him ▸ hfc)
      · have hfm : f = m := by simpa using h2
        show ((getF A f).nbrs.get d).isSome
        rcases Nat.lt_or_ge i m with hi1 | hi1
        · exfalso
          obtain ⟨g, hg, hgc⟩ := hs.finals_cover i hi1
          have hmi : (getF A₀ m).coords = (getF A₀ i).coords := by
            rw [← hfm]; exact hfc
          exact hempty g hg (hgc.trans hmi.symm)
        · have him : i = m := by omega
          rw [hfm]
          rw [him] at hiso
          obtain ⟨j, hj⟩ := Option.isSome_iff_exists.mp hiso
          rw [hs.slot_grow m d j hj]
          rfl
  · -- exactly one existing field: merge the neighbor maps
    have he1mem : e1 ∈ finals.filter
        (fun f => (getF A f).coords = (getF A m).coords) := by
      rw [hfil]; simp
    obtain ⟨he1f, he1c⟩ := List.mem_filter.mp he1mem
    have he1c2 : (getF A e1).coords = (getF A m).coords := by
      simpa using he1c
    have he1c₀ : (getF A₀ e1).coords = (getF A₀ m).coords := by
      rw [← hcoe e1, ← hcoe m]; exact he1c2
    have he1_lt : e1 < m := hfin_lt e1 he1f
    have hne : m ≠ e1 := by omega
    have he1_len : e1 < A.length := by omega
    refine ⟨(mergeNbrs A e1 m, finals), ?_, ?_⟩
    · rw [mergeStep_eq, hfil]
    refine ⟨?_, ?_, ?_, ?_, ?_, ?_, hs.finals_first, hnodup, ?_, ?_, ?_, ?_, ?_⟩
    · show (mergeNbrs A e1 m).length = A₀.length
      rw [mergeNbrs_length A e1 m hne he1_len, hlen]
    · intro i
      show (getF (mergeNbrs A e1 m) i).coords = (getF A₀ i).coords
      rw [mergeNbrs_coords A e1 m hne he1_len i, hcoe i]
    · intro i
      show (getF (mergeNbrs A e1 m) i).value = (getF A₀ i).value
      rw [mergeNbrs_value A e1 m hne he1_len i, hs.value_eq i]
    · intro i d j h
      show (getF (mergeNbrs A e1 m) i).nbrs.get d = some j
      rw [mergeNbrs_slot A e1 m hne he1_len i d]
      by_cases hi : i = e1
      · rw [if_pos hi]
        have := hs.slot_grow i d j h
        rw [hi] at this
        rw [this]
        rfl
      · rw [if_neg hi]
        exact hs.slot_grow i d j h
    · intro i hi
      show (getF (mergeNbrs A e1 m) i).nbrs = (getF A₀ i).nbrs
      have hie : i ≠ e1 := fun hie => hi (hie ▸ he1f)
      rw [mergeNbrs_getF_ne A e1 m hne he1_len i hie]
      exact hs.nonfinal_eq i hi
    · exact fun f hf => by have := hfin_lt f hf; omega
    · intro i hi
      rcases Nat.lt_or_ge i m with h1 | h1
      · exact hs.finals_cover i h1
      · have him : i = m := by omega
        subst him
        exact ⟨e1, he1f, he1c₀⟩
    · intro i hi d hiso f hf hfc
      show ((getF (mergeNbrs A e1 m) f).nbrs.get d).isSome
      rw [mergeNbrs_slot A e1 m hne he1_len f d]
      by_cases hfe : f = e1
      · rw [if_pos hfe]
        rcases Nat.lt_or_ge i m with hi1 | hi1
        · have := hs.slot_transfer i hi1 d hiso f hf hfc
          rw [hfe] at this
          exact option_or_isSome_left this
        · have him : i = m := by omega
          subst him
          obtain ⟨j, hj⟩ := Option.isSome_iff_exists.mp hiso
          have := hs.slot_grow i d j hj
          exact option_or_isSome_right (by rw [this]; rfl)
      · rw [if_neg hfe]
        rcases Nat.lt_or_ge i m with hi1 | hi1
        · exact hs.slot_transfer i hi1 d hiso f hf hfc
        · have him : i = m := by omega
          subst him
          exfalso
          have hsym2 : ∀ a ∈ finals, ∀ b ∈ finals, a ≠ b →
              (getF A₀ a).coords ≠ (getF A₀ b).coords := by
            intro a ha b hb hab
            exact List.Pairwise.forall (fun x y hxy => (hxy ∘ Eq.symm)) hnodup ha hb hab
          exact hsym2 f hf e1 he1f hfe (by rw [hfc, ← he1c₀])
    · intro i d j h
      have h2 : (getF (mergeNbrs A e1 m) i).nbrs.get d = some j := h
      rw [mergeNbrs_slot A e1 m hne he1_len i d] at h2
      show j < A₀.length ∧
        (getF (mergeNbrs A e1 m) j).coords =
          ((getF (mergeNbrs A e1 m) i).coords.1 + (directionAdjustment d).1,
           (getF (mergeNbrs A e1 m) i).coords.2 + (directionAdjustment d).2)
      rw [mergeNbrs_coords A e1 m hne he1_len j,
        mergeNbrs_coords A e1 m hne he1_len i]
      by_cases hi : i = e1
      · rw [if_pos hi] at h2
        rw [hi]
        rcases option_or_eq_some h2 with hcase | ⟨_, hcase⟩
        · have hjc : (getF A j).coords =
              ((getF A e1).coords.1 + (directionAdjustment d).1,
               (getF A e1).coords.2 + (directionAdjustment d).2) :=
            (hs.link_tgt2 e1 d j hcase).2
          exact ⟨(hs.link_tgt2 e1 d j hcase).1, hjc⟩
        · have hjc : (getF A j).coords =
              ((getF A m).coords.1 + (directionAdjustment d).1,
               (getF A m).coords.2 + (directionAdjustment d).2) :=
            (hs.link_tgt2 m d j hcase).2
          refine ⟨(hs.link_tgt2 m d j hcase).1, ?_⟩
          rw [hjc, he1c2]
      · rw [if_neg hi] at h2
        have hjc : (getF A j).coords =
            ((getF A i).coords.1 + (directionAdjustment d).1,
             (getF A i).coords.2 + (directionAdjustment d).2) :=
          (hs.link_tgt2 i d j h2).2
        exact ⟨(hs.link_tgt2 i d j h2).1, hjc⟩
    · intro i d j h
      have h2 : (getF (mergeNbrs A e1 m) i).nbrs.get d = some j := h
      rw [mergeNbrs_slot A e1 m hne he1_len i d] at h2
      show ∃ x, (getF (mergeNbrs A e1 m) j).nbrs.get (oppositeDirection d) = some x ∧
        (getF (mergeNbrs A e1 m) x).coords = (getF (mergeNbrs A e1 m) i).coords
      have hkeep : ∀ y e x, (getF A y).nbrs.get e = some x →
          (getF (mergeNbrs A e1 m) y).nbrs.get e = some x := by
        intro y e x hx
        rw [mergeNbrs_slot A e1 m hne he1_len y e]
        by_cases hy : y = e1
        · rw [if_pos hy]
          rw [hy] at hx
          rw [hx]
          rfl
        · rw [if_neg hy]
          exact hx
      by_cases hi : i = e1
      · rw [if_pos hi] at h2
        rcases option_or_eq_some h2 with hcase | ⟨_, hcase⟩
        · obtain ⟨x, hx1, hx2⟩ := hs.coordsym e1 d j hcase
          have hx1b : (getF A j).nbrs.get (oppositeDirection d) = some x := hx1
          have hx2b : (getF A x).coords = (getF A e1).coords := hx2
          refine ⟨x, hkeep j (oppositeDirection d) x hx1b, ?_⟩
          rw [mergeNbrs_coords A e1 m hne he1_len x,
            mergeNbrs_coords A e1 m hne he1_len i, hi, hx2b]
        · obtain ⟨x, hx1, hx2⟩ := hs.coordsym m d j hcase
          have hx1b : (getF A j).nbrs.get (oppositeDirection d) = some x := hx1
          have hx2b : (getF A x).coords = (getF A m).coords := hx2
          refine ⟨x, hkeep j (oppositeDirection d) x hx1b, ?_⟩
          rw [mergeNbrs_coords A e1 m hne he1_len x,
            mergeNbrs_coords A e1 m hne he1_len i, hi, hx2b, he1c2]
      · rw [if_neg hi] at h2
        obtain ⟨x, hx1, hx2⟩ := hs.coordsym i d j h2
        have hx1b : (getF A j).nbrs.get (oppositeDirection d) = some x := hx1
        have hx2b : (getF A x).coords = (getF A i).coords := hx2
        refine ⟨x, hkeep j (oppositeDirection d) x hx1b, ?_⟩
        rw [mergeNbrs_coords A e1 m hne he1_len x,
          mergeNbrs_coords A e1 m hne he1_len i, hx2b]
    · intro i d h1 h2
      have h1a : hexDist (getF (mergeNbrs A e1 m) i).coords = N := h1
      have h2a : hexDist ((getF (mergeNbrs A e1 m) i).coords.1 +
          (directionAdjustment d).1,
          (getF (mergeNbrs A e1 m) i).coords.2 + (directionAdjustment d).2) = N := h2
      rw [mergeNbrs_coords A e1 m hne he1_len i] at h1a h2a
      show (getF (mergeNbrs A e1 m) i).nbrs.get d = none
      rw [mergeNbrs_slot A e1 m hne he1_len i d]
      by_cases hi : i = e1
      · rw [hi] at h1a h2a
        rw [if_pos hi]
        have h1m : hexDist (getF A m).coords = N := by
          rw [← he1c2]; exact h1a
        have h2m : hexDist ((getF A m).coords.1 + (directionAdjustment d).1,
            (getF A m).coords.2 + (directionAdjustment d).2) = N := by
          rw [← he1c2]; exact h2a
        have hne1 : (getF A e1).nbrs.get d = none := hs.rimnone e1 d h1a h2a
        have hnem : (getF A m).nbrs.get d = none := hs.rimnone m d h1m h2m
        rw [hne1, hnem]
        rfl
      · rw [if_neg hi]
        exact hs.rimnone i d h1a h2a
  · -- two or more matches: impossible because final coordinates are unique
    exfalso
    have hsub : (finals.filter
        (fun f => (getF A f).coords = (getF A m).coords)).Sublist finals :=
      List.filter_sublist finals
    have hpw := List.Pairwise.sublist hsub hnodup
    rw [hfil] at hpw
    have h12 := (List.pairwise_cons.mp hpw).1 e2 (by simp)
    have he1mem : e1 ∈ finals.filter
        (fun f => (getF A f).coords = (getF A m).coords) := by
      rw [hfil]; simp
    have he2mem : e2 ∈ finals.filter
        (fun f => (getF A f).coords = (getF A m).coords) := by
      rw [hfil]; simp
    obtain ⟨_, he1c⟩ := List.mem_filter.mp he1mem
    obtain ⟨_, he2c⟩ := List.mem_filter.mp he2mem
    have hc1 : (getF A e1).coords = (getF A m).coords := by simpa using he1c
    have hc2 : (getF A e2).coords = (getF A m).coords := by simpa using he2c
    apply h12
    rw [← hcoe e1, ← hcoe e2, hc1, hc2]

theorem minv2_fold (N : Nat) (A₀ : Arena) (cnt : Nat) :
    ∀ (m : Nat), m + cnt = A₀.length → ∀ s, MInv2 N A₀ m s →
    ∃ s2, (List.range' m cnt).foldl mergeStep (.ok s) = .ok s2 ∧
      MInv2 N A₀ A₀.length s2 := by
  induction cnt with
  | zero =>
    intro m hm s hs
    refine ⟨s, by simp [List.range'], ?_⟩
    have hmA : m = A₀.length := by omega
    rw [← hmA]
    exact hs
  | succ cnt ih =>
    intro m hm s hs
    have hm2 : m < A₀.length := by omega
    obtain ⟨s1, hstep, hs1⟩ := minv2_step N A₀ m s hm2 hs
    rw [List.range'_succ, List.foldl_cons, hstep]
    exact ih (m + 1) (by omega) s1 hs1

/-- Successful construction: for radius at least 1 the merge pass never
hits the `RuntimeError` branch, and the resulting board satisfies the
merge invariant at the full field count. -/
theorem create_builds (R : Int) (hR : 1 ≤ R) :
    ∃ A2 F2, create_superhex_with_concentric_values R = .ok ⟨A2, F2⟩ ∧
      MInv2 R.toNat (buildState R).arena (buildState R).arena.length (A2, F2) := by
  have hI := inv_buildState R
  have hN : 1 ≤ R.toNat := by omega
  have hinit := minv2_init R R.toNat (buildState R) hI hN
  have hflds := hI.flds
  obtain ⟨s2, hfold, hs2⟩ := minv2_fold R.toNat (buildState R).arena
    (buildState R).arena.length 0 (by omega) ((buildState R).arena, []) hinit
  obtain ⟨A2, F2⟩ := s2
  refine ⟨A2, F2, ?_, hs2⟩
  have hfold2 : (buildState R).fields.foldl mergeStep
      (.ok ((buildState R).arena, [])) = .ok (A2, F2) := by
    rw [hflds, List.range_eq_range']
    exact hfold
  unfold create_superhex_with_concentric_values
  rw [if_neg (by omega : ¬ R < 1)]
  show (match (buildState R).fields.foldl mergeStep
      (.ok ((buildState R).arena, [])) with
    | .error _ => Except.error BuildError.runtimeError
    | .ok (A, finals) => Except.ok (⟨A, finals⟩ : HexBoard)) = .ok ⟨A2, F2⟩
  rw [hfold2]

/-- Any successfully returned board satisfies the merge invariant. -/
theorem create_spec (R : Int) (hR : 1 ≤ R) (b : HexBoard)
    (hb : create_superhex_with_concentric_values R = .ok b) :
    MInv2 R.toNat (buildState R).arena (buildState R).arena.length
      (b.arena, b.fields) := by
  obtain ⟨A2, F2, hc, hm⟩ := create_builds R hR
  rw [hc] at hb
  have hbe : b = ⟨A2, F2⟩ := (Except.ok.inj hb).symm
  rw [hbe]
  exact hm

/-! ### Enumerating the hexagon: rings and their sizes -/

def side1 (k : Nat) : List (Int × Int) :=
  (List.range k).map (fun i : Nat => ((k : Int), -(k : Int) + i))

def side2 (k : Nat) : List (Int × Int) :=
  (List.range k).map (fun i : Nat => ((k : Int) - i, (i : Int)))

def side3 (k : Nat) : List (Int × Int) :=
  (List.range k).map (fun i : Nat => (-(i : Int), (k : Int)))

def side4 (k : Nat) : List (Int × Int) :=
  (List.range k).map (fun i : Nat => (-(k : Int), (k : Int) - i))

def side5 (k : Nat) : List (Int × Int) :=
  (List.range k).map (fun i : Nat => (-(k : Int) + i, -(i : Int)))

def side6 (k : Nat) : List (Int × Int) :=
  (List.range k).map (fun i : Nat => ((i : Int), -(k : Int)))

/-- All coordinates at hex distance exactly `k ≥ 1`, as six open-ended sides. -/
def ringList (k : Nat) : List (Int × Int) :=
  side1 k ++ side2 k ++ side3 k ++ side4 k ++ side5 k ++ side6 k

theorem mem_side1 (k : Nat) (q r : Int) :
    (q, r) ∈ side1 k ↔ q = (k : Int) ∧ -(k : Int) ≤ r ∧ r ≤ -1 := by
  unfold side1
  simp only [List.mem_map, List.mem_range]
  constructor
  · rintro ⟨i, hi, heq⟩
    rw [Prod.mk.injEq] at heq
    omega
  · rintro ⟨h1, h2, h3⟩
    refine ⟨(r + k).toNat, by omega, ?_⟩
    rw [Prod.mk.injEq]
    constructor <;> omega

theorem mem_side2 (k : Nat) (q r : Int) :
    (q, r) ∈ side2 k ↔ q + r = (k : Int) ∧ 1 ≤ q ∧ q ≤ (k : Int) := by
  unfold side2
  simp only [List.mem_map, List.mem_range]
  constructor
  · rintro ⟨i, hi, heq⟩
    rw [Prod.mk.injEq] at heq
    omega
  · rintro ⟨h1, h2, h3⟩
    refine ⟨r.toNat, by omega, ?_⟩
    rw [Prod.mk.injEq]
    constructor <;> omega

theorem mem_side3 (k : Nat) (q r : Int) :
    (q, r) ∈ side3 k ↔ r = (k : Int) ∧ -(k : Int) + 1 ≤ q ∧ q ≤ 0 := by
  unfold side3
  simp only [List.mem_map, List.mem_range]
  constructor
  · rintro ⟨i, hi, heq⟩
    rw [Prod.mk.injEq] at heq
    omega
  · rintro ⟨h1, h2, h3⟩
    refine ⟨(-q).toNat, by omega, ?_⟩
    rw [Prod.mk.injEq]
    constructor <;> omega

theorem mem_side4 (k : Nat) (q r : Int) :
    (q, r) ∈ side4 k ↔ q = -(k : Int) ∧ 1 ≤ r ∧ r ≤ (k : Int) := by
  unfold side4
  simp only [List.mem_map, List.mem_range]
  constructor
  · rintro ⟨i, hi, heq⟩
    rw [Prod.mk.injEq] at heq
    omega
  · rintro ⟨h1, h2, h3⟩
    refine ⟨((k : Int) - r).toNat, by omega, ?_⟩
    rw [Prod.mk.injEq]
    constructor <;> omega

theorem mem_side5 (k : Nat) (q r : Int) :
    (q, r) ∈ side5 k ↔ q + r = -(k : Int) ∧ -(k : Int) ≤ q ∧ q ≤ -1 := by
  unfold side5
  simp only [List.mem_map, List.mem_range]
  constructor
  · rintro ⟨i, hi, heq⟩
    rw [Prod.mk.injEq] at heq
    omega
  · rintro ⟨h1, h2, h3⟩
    refine ⟨(-r).toNat, by omega, ?_⟩
    rw [Prod.mk.injEq]
    constructor <;> omega

theorem mem_side6 (k : Nat) (q r : Int) :
    (q, r) ∈ side6 k ↔ r = -(k : Int) ∧ 0 ≤ q ∧ q ≤ (k : Int) - 1 := by
  unfold side6
  simp only [List.mem_map, List.mem_range]
  constructor
  · rintro ⟨i, hi, heq⟩
    rw [Prod.mk.injEq] at heq
    omega
  · rintro ⟨h1, h2, h3⟩
    refine ⟨q.toNat, by omega, ?_⟩
    rw [Prod.mk.injEq]
    constructor <;> omega

theorem mem_ringList (k : Nat) (hk : 1 ≤ k) (c : Int × Int) :
    c ∈ ringList k ↔ hexDist c = k := by
  obtain ⟨q, r⟩ := c
  have hq := hexDist_ge_q (q, r)
  have hr := hexDist_ge_r (q, r)
  have hs := hexDist_ge_s (q, r)
  have hat := hexDist_attained q r
  unfold ringList
  simp only [List.mem_append, mem_side1, mem_side2, mem_side3, mem_side4,
    mem_side5, mem_side6]
  constructor
  · intro h
    have hub : hexDist (q, r) ≤ k := by
      refine (hexDist_le_iff (q, r) k).mpr ?_
      simp only
      omega
    omega
  · intro h
    have hle : q.natAbs ≤ k ∧ r.natAbs ≤ k ∧ (q + r).natAbs ≤ k := by
      have := (hexDist_le_iff (q, r) k).mp (Nat.le_of_eq h)
      simpa using this
    omega

theorem nodup_side1 (k : Nat) : (side1 k).Nodup := by
  unfold side1
  refine List.Nodup.map ?_ (List.nodup_range k)
  intro a b hab
  rw [Prod.mk.injEq] at hab
  omega

theorem nodup_side2 (k : Nat) : (side2 k).Nodup := by
  unfold side2
  refine List.Nodup.map ?_ (List.nodup_range k)
  intro a b hab
  rw [Prod.mk.injEq] at hab
  omega

theorem nodup_side3 (k : Nat) : (side3 k).Nodup := by
  unfold side3
  refine List.Nodup.map ?_ (List.nodup_range k)
  intro a b hab
  rw [Prod.mk.injEq] at hab
  omega

theorem nodup_side4 (k : Nat) : (side4 k).Nodup := by
  unfold side4
  refine List.Nodup.map ?_ (List.nodup_range k)
  intro a b hab
  rw [Prod.mk.injEq] at hab
  omega

theorem nodup_side5 (k : Nat) : (side5 k).Nodup := by
  unfold side5
  refine List.Nodup.map ?_ (List.nodup_range k)
  intro a b hab
  rw [Prod.mk.injEq] at hab
  omega

theorem nodup_side6 (k : Nat) : (side6 k).Nodup := by
  unfold side6
  refine List.Nodup.map ?_ (List.nodup_range k)
  intro a b hab
  rw [Prod.mk.injEq] at hab
  omega

theorem ringList_nodup (k : Nat) (hk : 1 ≤ k) : (ringList k).Nodup := by
  have d12 : List.Disjoint (side1 k) (side2 k) := by
    intro c h1 h2
    obtain ⟨q, r⟩ := c
    rw [mem_side1] at h1
    rw [mem_side2] at h2
    omega
  have d13 : List.Disjoint (side1 k) (side3 k) := by
    intro c h1 h2
    obtain ⟨q, r⟩ := c
    rw [mem_side1] at h1
    rw [mem_side3] at h2
    omega
  have d14 : List.Disjoint (side1 k) (side4 k) := by
    intro c h1 h2
    obtain ⟨q, r⟩ := c
    rw [mem_side1] at h1
    rw [mem_side4] at h2
    omega
  have d15 : List.Disjoint (side1 k) (side5 k) := by
    intro c h1 h2
    obtain ⟨q, r⟩ := c
    rw [mem_side1] at h1
    rw [mem_side5] at h2
    omega
  have d16 : List.Disjoint (side1 k) (side6 k) := by
    intro c h1 h2
    obtain ⟨q, r⟩ := c
    rw [mem_side1] at h1
    rw [mem_side6] at h2
    omega
  have d23 : List.Disjoint (side2 k) (side3 k) := by
    intro c h1 h2
    obtain ⟨q, r⟩ := c
    rw [mem_side2] at h1
    rw [mem_side3] at h2
    omega
  have d24 : List.Disjoint (side2 k) (side4 k) := by
    intro c h1 h2
    obtain ⟨q, r⟩ := c
    rw [mem_side2] at h1
    rw [mem_side4] at h2
    omega
  have d25 : List.Disjoint (side2 k) (side5 k) := by
    intro c h1 h2
    obtain ⟨q, r⟩ := c
    rw [mem_side2] at h1
    rw [mem_side5] at h2
    omega
  have d26 : List.Disjoint (side2 k) (side6 k) := by
    intro c h1 h2
    obtain ⟨q, r⟩ := c
    rw [mem_side2] at h1
    rw [mem_side6] at h2
    omega
  have d34 : List.Disjoint (side3 k) (side4 k) := by
    intro c h1 h2
    obtain ⟨q, r⟩ := c
    rw [mem_side3] at h1
    rw [mem_side4] at h2
    omega
  have d35 : List.Disjoint (side3 k) (side5 k) := by
    intro c h1 h2
    obtain ⟨q, r⟩ := c
    rw [mem_side3] at h1
    rw [mem_side5] at h2
    omega
  have d36 : List.Disjoint (side3 k) (side6 k) := by
    intro c h1 h2
    obtain ⟨q, r⟩ := c
    rw [mem_side3] at h1
    rw [mem_side6] at h2
    omega
  have d45 : List.Disjoint (side4 k) (side5 k) := by
    intro c h1 h2
    obtain ⟨q, r⟩ := c
    rw [mem_side4] at h1
    rw [mem_side5] at h2
    omega
  have d46 : List.Disjoint (side4 k) (side6 k) := by
    intro c h1 h2
    obtain ⟨q, r⟩ := c
    rw [mem_side4] at h1
    rw [mem_side6] at h2
    omega
  have d56 : List.Disjoint (side5 k) (side6 k) := by
    intro c h1 h2
    obtain ⟨q, r⟩ := c
    rw [mem_side5] at h1
    rw [mem_side6] at h2
    omega
  have n1 := nodup_side1 k
  have n2 := nodup_side2 k
  have n3 := nodup_side3 k
  have n4 := nodup_side4 k
  have n5 := nodup_side5 k
  have n6 := nodup_side6 k
  unfold ringList
  simp only [List.nodup_append, List.disjoint_append_left]
  exact ⟨⟨⟨⟨⟨n1, n2, d12⟩, n3, d13, d23⟩, n4, ⟨d14, d24⟩, d34⟩,
    n5, ⟨⟨d15, d25⟩, d35⟩, d45⟩, n6, ⟨⟨⟨d16, d26⟩, d36⟩, d46⟩, d56⟩

/-- All coordinates at hex distance at most `N`. -/
def hexList : Nat → List (Int × Int)
  | 0 => [(0, 0)]
  | (k + 1) => hexList k ++ ringList (k + 1)

theorem mem_hexList (N : Nat) (c : Int × Int) : c ∈ hexList N ↔ hexDist c ≤ N := by
  induction N with
  | zero =>
    show c ∈ [((0 : Int), (0 : Int))] ↔ hexDist c ≤ 0
    simp only [List.mem_singleton, Nat.le_zero]
    constructor
    · intro h
      rw [h]
      rfl
    · intro h
      exact (hexDist_eq_zero_iff c).mp h
  | succ N ih =>
    show c ∈ hexList N ++ ringList (N + 1) ↔ hexDist c ≤ N + 1
    rw [List.mem_append, ih, mem_ringList (N + 1) (by omega)]
    omega

theorem nodup_hexList (N : Nat) : (hexList N).Nodup := by
  induction N with
  | zero =>
    show ([((0 : Int), (0 : Int))]).Nodup
    simp
  | succ N ih =>
    show (hexList N ++ ringList (N + 1)).Nodup
    refine List.Nodup.append ih (ringList_nodup (N + 1) (by omega)) ?_
    intro c h1 h2
    rw [mem_hexList] at h1
    rw [mem_ringList (N + 1) (by omega)] at h2
    omega

theorem length_ringList (k : Nat) : (ringList k).length = 6 * k := by
  unfold ringList side1 side2 side3 side4 side5 side6
  simp only [List.length_append, List.length_map, List.length_range]
  omega

theorem length_hexList (N : Nat) :
    (hexList N).length = 3 * N * N + 3 * N + 1 := by
  induction N with
  | zero => rfl
  | succ N ih =>
    show (hexList N ++ ringList (N + 1)).length = _
    rw [List.length_append, ih, length_ringList]
    have h : 3 * (N + 1) * (N + 1) = 3 * N * N + 6 * N + 3 := by ring
    omega

/-! ### Board-level consequences -/

theorem board_field_lt (R : Int) (hR : 1 ≤ R) (b : HexBoard)
    (hb : create_superhex_with_concentric_values R = .ok b)
    (f : Nat) (hf : f ∈ b.fields) : f < (buildState R).arena.length :=
  (create_spec R hR b hb).finals_lt f hf

theorem board_coords_base (R : Int) (hR : 1 ≤ R) (b : HexBoard)
    (hb : create_superhex_with_concentric_values R = .ok b) (i : Nat) :
    (getF b.arena i).coords = (getF (buildState R).arena i).coords :=
  (create_spec R hR b hb).coords_eq i

theorem board_dist_le (R : Int) (hR : 1 ≤ R) (b : HexBoard)
    (hb : create_superhex_with_concentric_values R = .ok b)
    (f : Nat) (hf : f ∈ b.fields) :
    hexDist (getF b.arena f).coords ≤ R.toNat := by
  rw [board_coords_base R hR b hb f]
  exact inv_dist_bounded R R.toNat (buildState R) (inv_buildState R) f
    (board_field_lt R hR b hb f hf)

theorem board_value (R : Int) (hR : 1 ≤ R) (b : HexBoard)
    (hb : create_superhex_with_concentric_values R = .ok b)
    (f : Nat) (hf : f ∈ b.fields) :
    (getF b.arena f).value = R + 1 - (hexDist (getF b.arena f).coords : Int) := by
  have hM := create_spec R hR b hb
  have hI := inv_buildState R
  have hlt := board_field_lt R hR b hb f hf
  have hfirst : ∀ j, j < f → (getF (buildState R).arena j).coords ≠
      (getF (buildState R).arena f).coords := hM.finals_first f hf
  have hring := inv_first_ring R R.toNat (buildState R) hI f hlt hfirst
  have hval : (getF b.arena f).value = (getF (buildState R).arena f).value :=
    hM.value_eq f
  rw [hval, board_coords_base R hR b hb f]
  unfold ringOf at hring
  omega

theorem board_nodup (R : Int) (hR : 1 ≤ R) (b : HexBoard)
    (hb : create_superhex_with_concentric_values R = .ok b) :
    (b.fields.map (fun i => (getF b.arena i).coords)).Nodup := by
  have hM := create_spec R hR b hb
  have hpw : b.fields.Pairwise (fun f g =>
      (getF (buildState R).arena f).coords ≠ (getF (buildState R).arena g).coords) :=
    hM.finals_nodupc
  have hH : ∀ a c : Nat,
      (getF (buildState R).arena a).coords ≠ (getF (buildState R).arena c).coords →
      (getF b.arena a).coords ≠ (getF b.arena c).coords := by
    intro a c hac
    rw [board_coords_base R hR b hb a, board_coords_base R hR b hb c]
    exact hac
  show List.Pairwise (fun x y : Int × Int => x ≠ y)
    (b.fields.map (fun i => (getF b.arena i).coords))
  exact List.Pairwise.map (fun i => (getF b.arena i).coords) hH hpw

theorem board_covers (R : Int) (hR : 1 ≤ R) (b : HexBoard)
    (hb : create_superhex_with_concentric_values R = .ok b)
    (c : Int × Int) (hc : hexDist c ≤ R.toNat) :
    ∃ f ∈ b.fields, (getF b.arena f).coords = c := by
  have hM := create_spec R hR b hb
  have hI := inv_buildState R
  obtain ⟨i, hi, hic, _⟩ := hI.covered c hc
  obtain ⟨f, hf, hfc⟩ := hM.finals_cover i hi
  exact ⟨f, hf, by rw [board_coords_base R hR b hb f, hfc, hic]⟩

theorem board_link_coords (R : Int) (hR : 1 ≤ R) (b : HexBoard)
    (hb : create_superhex_with_concentric_values R = .ok b)
    (f : Nat) (d : Dir) (j : Nat)
    (h : (getF b.arena f).nbrs.get d = some j) :
    (getF b.arena j).coords =
      ((getF b.arena f).coords.1 + (directionAdjustment d).1,
       (getF b.arena f).coords.2 + (directionAdjustment d).2) :=
  ((create_spec R hR b hb).link_tgt2 f d j h).2

theorem board_slot_iff (R : Int) (hR : 1 ≤ R) (b : HexBoard)
    (hb : create_superhex_with_concentric_values R = .ok b)
    (f : Nat) (hf : f ∈ b.fields) (d : Dir) :
    ((getF b.arena f).nbrs.get d).isSome = true ↔
      (hexDist ((getF b.arena f).coords.1 + (directionAdjustment d).1,
          (getF b.arena f).coords.2 + (directionAdjustment d).2) ≤ R.toNat ∧
        ¬(hexDist (getF b.arena f).coords = R.toNat ∧
          hexDist ((getF b.arena f).coords.1 + (directionAdjustment d).1,
            (getF b.arena f).coords.2 + (directionAdjustment d).2) = R.toNat)) := by
  have hM := create_spec R hR b hb
  have hI := inv_buildState R
  have hlt := board_field_lt R hR b hb f hf
  constructor
  · intro hiso
    obtain ⟨j, hj⟩ := Option.isSome_iff_exists.mp hiso
    have hjl : j < (buildState R).arena.length := (hM.link_tgt2 f d j hj).1
    have hjc : (getF b.arena j).coords =
        ((getF b.arena f).coords.1 + (directionAdjustment d).1,
         (getF b.arena f).coords.2 + (directionAdjustment d).2) :=
      (hM.link_tgt2 f d j hj).2
    constructor
    · have hd := inv_dist_bounded R R.toNat (buildState R) hI j hjl
      rw [← board_coords_base R hR b hb j, hjc] at hd
      exact hd
    · rintro ⟨h1, h2⟩
      have hnone : (getF b.arena f).nbrs.get d = none := hM.rimnone f d h1 h2
      rw [hnone] at hj
      exact absurd hj (by simp)
  · rintro ⟨h1, h2⟩
    have hceq : (getF (buildState R).arena f).coords = (getF b.arena f).coords :=
      (board_coords_base R hR b hb f).symm
    rcases Nat.lt_or_ge (hexDist ((getF b.arena f).coords.1 + (directionAdjustment d).1,
        (getF b.arena f).coords.2 + (directionAdjustment d).2)) R.toNat with hlt2 | hge
    · obtain ⟨i, hi, hic, hiso⟩ := inv_slot_filled R R.toNat (buildState R) hI
        (getF b.arena f).coords d hlt2
      have htr := hM.slot_transfer i hi d hiso f hf (by rw [hceq, hic])
      exact htr
    · have heq : hexDist ((getF b.arena f).coords.1 + (directionAdjustment d).1,
          (getF b.arena f).coords.2 + (directionAdjustment d).2) = R.toNat := by
        omega
      have hclt : hexDist (getF b.arena f).coords < R.toNat := by
        have hdle2 := board_dist_le R hR b hb f hf
        rcases Nat.lt_or_ge (hexDist (getF b.arena f).coords) R.toNat with h | h
        · exact h
        · exact absurd ⟨by omega, heq⟩ h2
      have hfirst : ∀ j, j < f → (getF (buildState R).arena j).coords ≠
          (getF (buildState R).arena f).coords := hM.finals_first f hf
      have hring := inv_first_ring R R.toNat (buildState R) hI f hlt hfirst
      have hsat := hI.saturated f hlt (by
        rw [hring, hceq]
        exact_mod_cast hclt) d
      obtain ⟨j, hj⟩ := Option.isSome_iff_exists.mp hsat
      have hg : (getF b.arena f).nbrs.get d = some j := hM.slot_grow f d j hj
      rw [hg]
      rfl

theorem board_coordsym (R : Int) (hR : 1 ≤ R) (b : HexBoard)
    (hb : create_superhex_with_concentric_values R = .ok b)
    (f : Nat) (d : Dir) (j : Nat)
    (h : (getF b.arena f).nbrs.get d = some j) :
    ∃ x, (getF b.arena j).nbrs.get (oppositeDirection d) = some x ∧
      (getF b.arena x).coords = (getF b.arena f).coords :=
  (create_spec R hR b hb).coordsym f d j h

theorem board_count (R : Int) (hR : 1 ≤ R) (b : HexBoard)
    (hb : create_superhex_with_concentric_values R = .ok b) :
    b.fields.length = 3 * R.toNat * R.toNat + 3 * R.toNat + 1 := by
  have hnd := board_nodup R hR b hb
  have hset : (b.fields.map (fun i => (getF b.arena i).coords)).toFinset =
      (hexList R.toNat).toFinset := by
    apply Finset.ext
    intro x
    rw [List.mem_toFinset, List.mem_toFinset, List.mem_map, mem_hexList]
    constructor
    · rintro ⟨f, hf, rfl⟩
      exact board_dist_le R hR b hb f hf
    · intro hx
      obtain ⟨f, hf, hfc⟩ := board_covers R hR b hb x hx
      exact ⟨f, hf, hfc⟩
  have c1 := List.toFinset_card_of_nodup hnd
  have c2 := List.toFinset_card_of_nodup (nodup_hexList R.toNat)
  rw [hset, c2, length_hexList] at c1
  rw [List.length_map] at c1
  omega

theorem board_get_inside (R : Int) (hR : 1 ≤ R) (b : HexBoard)
    (hb : create_superhex_with_concentric_values R = .ok b)
    (c : Int × Int) (hc : hexDist c ≤ R.toNat) :
    ∃ i, b.get_field_at c = some i ∧ i ∈ b.fields ∧
      (getF b.arena i).coords = c := by
  obtain ⟨f, hf, hfc⟩ := board_covers R hR b hb c hc
  have hissome : (b.fields.find? (fun i =>
      (getF b.arena i).coords = c)).isSome := by
    rw [List.find?_isSome]
    exact ⟨f, hf, by simp [hfc]⟩
  obtain ⟨i, hfind⟩ := Option.isSome_iff_exists.mp hissome
  refine ⟨i, hfind, List.mem_of_find?_eq_some hfind, ?_⟩
  have := List.find?_some hfind
  simpa using this

theorem board_get_outside (R : Int) (hR : 1 ≤ R) (b : HexBoard)
    (hb : create_superhex_with_concentric_values R = .ok b)
    (c : Int × Int) (hc : R.toNat < hexDist c) :
    b.get_field_at c = none := by
  unfold HexBoard.get_field_at
  rw [List.find?_eq_none]
  intro x hx
  simp only [decide_eq_true_eq]
  intro hxc
  have := board_dist_le R hR b hb x hx
  rw [hxc] at this
  omega

/-! ### The string-level neighbor API -/

/-- `BaseHexField.__neighbor_directions__` as a collection of labels. -/
def neighborDirections : List String :=
  ["topleft", "topright", "bottomleft", "bottomright", "left", "right"]

/-- Looking a direction label up in the direction tables: succeeds exactly
for the six recognized labels. -/
def parseDir (s : String) : Option Dir :=
  if s = "topleft" then some .topleft
  else if s = "topright" then some .topright
  else if s = "bottomleft" then some .bottomleft
  else if s = "bottomright" then some .bottomright
  else if s = "left" then some .left
  else if s = "right" then some .right
  else none

/-- `BaseHexField.set_neighbor`: mutates the neighbor entry when the
direction label is recognized, otherwise raises `ValueError` and leaves the
mapping unchanged. The result is the post-state of the object paired with
whether `ValueError` was raised. -/
def set_neighbor (f : Field) (direction : String) (neighbor : Option Nat) :
    Field × Bool :=
  match parseDir direction with
  | some d => ({ f with nbrs := f.nbrs.set d neighbor }, false)
  | none => (f, true)

/-- `BaseHexField.get_neighbor`: the `_neighbors` dict always carries exactly
the six direction keys, so the `KeyError`-to-`ValueError` path triggers
exactly for unrecognized labels. -/
def get_neighbor (f : Field) (direction : String) : Except Unit (Option Nat) :=
  match parseDir direction with
  | some d => .ok (f.nbrs.get d)
  | none => .error ()

theorem parseDir_none_iff (s : String) :
    parseDir s = none ↔ s ∉ neighborDirections := by
  unfold parseDir neighborDirections
  by_cases h1 : s = "topleft"
  · simp [h1]
  by_cases h2 : s = "topright"
  · simp [h2]
  by_cases h3 : s = "bottomleft"
  · simp [h3]
  by_cases h4 : s = "bottomright"
  · simp [h4]
  by_cases h5 : s = "left"
  · simp [h5]
  by_cases h6 : s = "right"
  · simp [h6]
  simp [h1, h2, h3, h4, h5, h6]

/-- Extract the board from a successful construction. -/
def boardOf (e : Except BuildError HexBoard) : HexBoard :=
  match e with
  | .ok b => b
  | .error _ => ⟨[], []⟩

instance : DecidableEq (Except BuildError HexBoard) := fun x y =>
  match x, y with
  | .error a, .error b =>
    match decEq a b with
    | .isTrue h => .isTrue (h ▸ rfl)
    | .isFalse h => .isFalse (fun hc => h (Except.error.inj hc))
  | .ok a, .ok b =>
    match decEq a b with
    | .isTrue h => .isTrue (h ▸ rfl)
    | .isFalse h => .isFalse (fun hc => h (Except.ok.inj hc))
  | .error _, .ok _ => .isFalse (fun hc => Except.noConfusion hc)
  | .ok _, .error _ => .isFalse (fun hc => Except.noConfusion hc)

/-! ### The claims -/

set_option maxRecDepth 1000000

/-- Claim C1: for every integer radius R ≥ 1, the board returned by
`create_superhex_with_concentric_values` has a field list with exactly
3R² + 3R + 1 elements. -/
theorem claim_C1 (R : Int) (hR : 1 ≤ R) :
    ∃ b, create_superhex_with_concentric_values R = .ok b ∧
      (b.fields.length : Int) = 3 * R * R + 3 * R + 1 := by
  obtain ⟨A2, F2, hc, _⟩ := create_builds R hR
  refine ⟨⟨A2, F2⟩, hc, ?_⟩
  have hcount := board_count R hR ⟨A2, F2⟩ hc
  have hN : ((R.toNat : Int)) = R := Int.toNat_of_nonneg (by omega)
  rw [hcount]
  push_cast
  rw [hN]

/-- Witness for C1 at radius 1: the board has 7 fields. -/
theorem claim_C1_witness :
    ((boardOf (create_superhex_with_concentric_values 1)).fields.length : Int) =
      3 * 1 * 1 + 3 * 1 + 1 := by
  obtain ⟨b, hb, hlen⟩ := claim_C1 1 (by norm_num)
  rw [hb]
  exact hlen

/-- Claim C2 as stated is false: at radius 1 the board contains two fields
at hex-adjacent coordinates ((1,0) and its top-left neighbor (1,-1)) that
are not linked: the top-left slot of the field at (1,0) is absent. -/
theorem claim_C2_counterexample :
    ∃ b, create_superhex_with_concentric_values 1 = .ok b ∧
      ∃ f ∈ b.fields, ∃ g ∈ b.fields,
        (getF b.arena g).coords =
          ((getF b.arena f).coords.1 + (directionAdjustment Dir.topleft).1,
           (getF b.arena f).coords.2 + (directionAdjustment Dir.topleft).2) ∧
        (getF b.arena f).nbrs.get Dir.topleft = none :=
  ⟨boardOf (create_superhex_with_concentric_values 1), by decide, 6, by decide,
    2, by decide, by decide, by decide⟩

/-- Claim C2 (amended): neighbor links of board fields are geometrically
correct, and a link in direction d is present exactly when the adjacent
coordinate is inside the hexagon and the two coordinates are not both at
ring distance R (adjacent rim fields are never linked to each other). -/
theorem claim_C2_amended (R : Int) (hR : 1 ≤ R) (b : HexBoard)
    (hb : create_superhex_with_concentric_values R = .ok b) :
    ∀ f ∈ b.fields, ∀ d : Dir,
      (∀ j, (getF b.arena f).nbrs.get d = some j →
        (getF b.arena j).coords =
          ((getF b.arena f).coords.1 + (directionAdjustment d).1,
           (getF b.arena f).coords.2 + (directionAdjustment d).2)) ∧
      (((getF b.arena f).nbrs.get d).isSome = true ↔
        ((hexDist ((getF b.arena f).coords.1 + (directionAdjustment d).1,
            (getF b.arena f).coords.2 + (directionAdjustment d).2) : Int) ≤ R ∧
          ¬((hexDist (getF b.arena f).coords : Int) = R ∧
            (hexDist ((getF b.arena f).coords.1 + (directionAdjustment d).1,
              (getF b.arena f).coords.2 + (directionAdjustment d).2) : Int) = R))) := by
  intro f hf d
  have hN : ((R.toNat : Int)) = R := Int.toNat_of_nonneg (by omega)
  refine ⟨fun j h => board_link_coords R hR b hb f d j h, ?_⟩
  rw [board_slot_iff R hR b hb f hf d]
  constructor
  · rintro ⟨h1, h2⟩
    refine ⟨by omega, ?_⟩
    rintro ⟨h3, h4⟩
    exact h2 ⟨by omega, by omega⟩
  · rintro ⟨h1, h2⟩
    refine ⟨by omega, ?_⟩
    rintro ⟨h3, h4⟩
    exact h2 ⟨by omega, by omega⟩

/-- Witness for the amended C2 at radius 1: the center field's top-left
link is present. -/
theorem claim_C2_amended_witness :
    ((getF (boardOf (create_superhex_with_concentric_values 1)).arena 0).nbrs.get
      Dir.topleft).isSome = true :=
  (claim_C2_amended 1 (by norm_num)
    (boardOf (create_superhex_with_concentric_values 1)) (by decide)
    0 (by decide) Dir.topleft).2.mpr (by decide)

/-- Claim C3: every field's coordinates satisfy |q| ≤ R, |r| ≤ R,
|q+r| ≤ R, no two fields share a coordinate pair, and every such pair is
the coordinate of some field. -/
theorem claim_C3 (R : Int) (hR : 1 ≤ R) (b : HexBoard)
    (hb : create_superhex_with_concentric_values R = .ok b) :
    (∀ f ∈ b.fields,
      ((getF b.arena f).coords.1.natAbs : Int) ≤ R ∧
      ((getF b.arena f).coords.2.natAbs : Int) ≤ R ∧
      (((getF b.arena f).coords.1 + (getF b.arena f).coords.2).natAbs : Int) ≤ R) ∧
    (b.fields.map (fun i => (getF b.arena i).coords)).Nodup ∧
    (∀ c : Int × Int, (c.1.natAbs : Int) ≤ R → (c.2.natAbs : Int) ≤ R →
      ((c.1 + c.2).natAbs : Int) ≤ R →
      ∃ f ∈ b.fields, (getF b.arena f).coords = c) := by
  have hN : ((R.toNat : Int)) = R := Int.toNat_of_nonneg (by omega)
  refine ⟨?_, board_nodup R hR b hb, ?_⟩
  · intro f hf
    have hd := board_dist_le R hR b hb f hf
    have h3 := (hexDist_le_iff _ R.toNat).mp hd
    omega
  · intro c h1 h2 h3
    refine board_covers R hR b hb c ?_
    rw [hexDist_le_iff]
    omega

/-- Witness for C3 at radius 1, field 6 at (1,0). -/
theorem claim_C3_witness :
    ((getF (boardOf (create_superhex_with_concentric_values 1)).arena 6).coords.1.natAbs : Int) ≤ 1 ∧
    ((getF (boardOf (create_superhex_with_concentric_values 1)).arena 6).coords.2.natAbs : Int) ≤ 1 ∧
    (((getF (boardOf (create_superhex_with_concentric_values 1)).arena 6).coords.1 +
      (getF (boardOf (create_superhex_with_concentric_values 1)).arena 6).coords.2).natAbs : Int) ≤ 1 :=
  (claim_C3 1 (by norm_num) (boardOf (create_superhex_with_concentric_values 1))
    (by decide)).1 6 (by decide)

/-- Claim C4: the field at (0,0) has value R+1, and a field at ring
distance d = max(|q|,|r|,|q+r|) has value R+1-d. -/
theorem claim_C4 (R : Int) (hR : 1 ≤ R) (b : HexBoard)
    (hb : create_superhex_with_concentric_values R = .ok b) :
    (∀ f ∈ b.fields, (getF b.arena f).coords = ((0 : Int), (0 : Int)) →
      (getF b.arena f).value = R + 1) ∧
    (∀ f ∈ b.fields,
      (getF b.arena f).value =
        R + 1 - (hexDist (getF b.arena f).coords : Int)) := by
  constructor
  · intro f hf hc
    have hv := board_value R hR b hb f hf
    rw [hc] at hv
    rw [hv, hexDist_center]
    simp
  · intro f hf
    exact board_value R hR b hb f hf

/-- Witness for C4 at radius 1: the center field has value 2. -/
theorem claim_C4_witness :
    (getF (boardOf (create_superhex_with_concentric_values 1)).arena 0).value =
      1 + 1 :=
  (claim_C4 1 (by norm_num) (boardOf (create_superhex_with_concentric_values 1))
    (by decide)).1 0 (by decide) (by decide)

/-- Claim C5 as stated (reference-level symmetry) is false: at radius 2 the
board field 8 at (1,-2) has its bottom-right link pointing at board field 2
at (1,-1), but field 2's top-left link points at object 12, a dropped
duplicate, not back at field 8. -/
theorem claim_C5_counterexample :
    ∃ b, create_superhex_with_concentric_values 2 = .ok b ∧
      ∃ f ∈ b.fields, ∃ (d : Dir) (j : Nat),
        (getF b.arena f).nbrs.get d = some j ∧
        (getF b.arena j).nbrs.get (oppositeDirection d) ≠ some f :=
  ⟨boardOf (create_superhex_with_concentric_values 2), by decide, 8, by decide,
    Dir.bottomright, 2, by decide, by decide⟩

/-- Claim C5 (amended): if a board field A has B as its neighbor in
direction d, then B's neighbor in the opposite direction is a present field
with the same coordinates as A (though possibly a distinct object). -/
theorem claim_C5_amended (R : Int) (hR : 1 ≤ R) (b : HexBoard)
    (hb : create_superhex_with_concentric_values R = .ok b) :
    ∀ f ∈ b.fields, ∀ (d : Dir) (j : Nat),
      (getF b.arena f).nbrs.get d = some j →
      ∃ x, (getF b.arena j).nbrs.get (oppositeDirection d) = some x ∧
        (getF b.arena x).coords = (getF b.arena f).coords :=
  fun f _ d j h => board_coordsym R hR b hb f d j h

/-- Witness for the amended C5 at radius 1: field 1's bottom-right link
points at the center, whose top-left link is present in return. -/
theorem claim_C5_amended_witness :
    ((getF (boardOf (create_superhex_with_concentric_values 1)).arena 0).nbrs.get
      (oppositeDirection Dir.bottomright)).isSome = true := by
  obtain ⟨x, hx1, hx2⟩ := claim_C5_amended 1 (by norm_num)
    (boardOf (create_superhex_with_concentric_values 1)) (by decide)
    1 (by decide) Dir.bottomright 0 (by decide)
  rw [hx1]
  rfl

/-- Claim C6: a board field has at least one absent neighbor direction iff
its ring distance max(|q|,|r|,|q+r|) from the center equals R. -/
theorem claim_C6 (R : Int) (hR : 1 ≤ R) (b : HexBoard)
    (hb : create_superhex_with_concentric_values R = .ok b) :
    ∀ f ∈ b.fields,
      ((∃ d : Dir, (getF b.arena f).nbrs.get d = none) ↔
        (hexDist (getF b.arena f).coords : Int) = R) := by
  intro f hf
  have hN : ((R.toNat : Int)) = R := Int.toNat_of_nonneg (by omega)
  have hdle := board_dist_le R hR b hb f hf
  constructor
  · rintro ⟨d, hd⟩
    by_contra hne
    have hlt : hexDist (getF b.arena f).coords < R.toNat := by omega
    have hdue : hexDist ((getF b.arena f).coords.1 + (directionAdjustment d).1,
        (getF b.arena f).coords.2 + (directionAdjustment d).2) ≤ R.toNat ∧
        ¬(hexDist (getF b.arena f).coords = R.toNat ∧
          hexDist ((getF b.arena f).coords.1 + (directionAdjustment d).1,
            (getF b.arena f).coords.2 + (directionAdjustment d).2) = R.toNat) := by
      constructor
      · have := hexDist_adjacent_le (getF b.arena f).coords d
        omega
      · rintro ⟨h3, _⟩
        omega
    have hiso := (board_slot_iff R hR b hb f hf d).mpr hdue
    rw [hd] at hiso
    exact absurd hiso (by simp)
  · intro heq
    obtain ⟨d, hd⟩ := hexDist_step_up (getF b.arena f).coords
    refine ⟨d, ?_⟩
    rcases hsl : (getF b.arena f).nbrs.get d with _ | j
    · rfl
    · exfalso
      have hiso : ((getF b.arena f).nbrs.get d).isSome = true := by
        rw [hsl]
        rfl
      have hch := (board_slot_iff R hR b hb f hf d).mp hiso
      omega

/-- Witness for C6 at radius 1: field 1 has an absent direction, so its
ring distance is 1. -/
theorem claim_C6_witness :
    (hexDist (getF (boardOf (create_superhex_with_concentric_values 1)).arena 1).coords : Int) = 1 :=
  (claim_C6 1 (by norm_num) (boardOf (create_superhex_with_concentric_values 1))
    (by decide) 1 (by decide)).mp ⟨Dir.topleft, by decide⟩

/-- Claim C7: `get_field_at` returns the field with the queried coordinates
for every in-hexagon coordinate pair and `None` for every other pair. -/
theorem claim_C7 (R : Int) (hR : 1 ≤ R) (b : HexBoard)
    (hb : create_superhex_with_concentric_values R = .ok b) :
    ∀ c : Int × Int,
      ((hexDist c : Int) ≤ R →
        ∃ i, b.get_field_at c = some i ∧ i ∈ b.fields ∧
          (getF b.arena i).coords = c) ∧
      (R < (hexDist c : Int) → b.get_field_at c = none) := by
  intro c
  have hN : ((R.toNat : Int)) = R := Int.toNat_of_nonneg (by omega)
  constructor
  · intro hc
    exact board_get_inside R hR b hb c (by omega)
  · intro hc
    exact board_get_outside R hR b hb c (by omega)

/-- Witness for C7 at radius 1: looking up the out-of-hexagon coordinate
(5,5) yields `None`. -/
theorem claim_C7_witness :
    (boardOf (create_superhex_with_concentric_values 1)).get_field_at (5, 5) =
      none :=
  (claim_C7 1 (by norm_num) (boardOf (create_superhex_with_concentric_values 1))
    (by decide) (5, 5)).2 (by decide)

/-- Claim C8: `create_superhex_with_concentric_values` raises ValueError
exactly for radius < 1 and returns a board for radius ≥ 1; `set_neighbor`
and `get_neighbor` raise ValueError exactly for unrecognized direction
labels, and `set_neighbor` leaves the mapping unchanged in that case. -/
theorem claim_C8 :
    (∀ radius : Int, radius < 1 →
      create_superhex_with_concentric_values radius = .error .valueError) ∧
    (∀ radius : Int, 1 ≤ radius →
      ∃ b, create_superhex_with_concentric_values radius = .ok b) ∧
    (∀ (f : Field) (s : String) (v : Option Nat),
      ((set_neighbor f s v).2 = true ↔ s ∉ neighborDirections) ∧
      (s ∉ neighborDirections → (set_neighbor f s v).1 = f)) ∧
    (∀ (f : Field) (s : String),
      get_neighbor f s = .error () ↔ s ∉ neighborDirections) := by
  refine ⟨?_, ?_, ?_, ?_⟩
  · intro radius h
    unfold create_superhex_with_concentric_values
    rw [if_pos h]
  · intro radius h
    obtain ⟨A2, F2, hc, _⟩ := create_builds radius h
    exact ⟨⟨A2, F2⟩, hc⟩
  · intro f s v
    have hiff := parseDir_none_iff s
    unfold set_neighbor
    rcases hp : parseDir s with _ | d
    · rw [hp] at hiff
      simp only [true_iff] at hiff
      exact ⟨⟨fun _ => hiff, fun _ => rfl⟩, fun _ => rfl⟩
    · rw [hp] at hiff
      have hmem : s ∈ neighborDirections := by
        by_contra hmem
        exact absurd (hiff.mpr hmem) (by simp)
      exact ⟨⟨fun hfalse => absurd hfalse (by simp), fun hs => absurd hmem hs⟩,
        fun hs => absurd hmem hs⟩
  · intro f s
    have hiff := parseDir_none_iff s
    unfold get_neighbor
    rcases hp : parseDir s with _ | d
    · rw [hp] at hiff
      simp only [true_iff] at hiff
      exact ⟨fun _ => hiff, fun _ => rfl⟩
    · rw [hp] at hiff
      have hmem : s ∈ neighborDirections := by
        by_contra hmem
        exact absurd (hiff.mpr hmem) (by simp)
      exact ⟨fun h => absurd h (fun hc => Except.noConfusion hc),
        fun hs => absurd hmem hs⟩

/-- Witness for C8: radius 0 is rejected, radius 1 builds, and the label
"up" is rejected by both neighbor accessors without mutating the field. -/
theorem claim_C8_witness :
    create_superhex_with_concentric_values 0 = .error .valueError ∧
    (set_neighbor default "up" none).2 = true ∧
    (set_neighbor default "up" none).1 = default ∧
    get_neighbor default "up" = .error () :=
  ⟨claim_C8.1 0 (by norm_num),
    (claim_C8.2.2.1 default "up" none).1.mpr (by decide),
    (claim_C8.2.2.1 default "up" none).2 (by decide),
    (claim_C8.2.2.2 default "up").mpr (by decide)⟩

/-- Claim C9: for every radius ≥ 1 the deduplicated list holds at most one
field per coordinate, so the more-than-one-match branch is unreachable and
`RuntimeError` is never raised. -/
theorem claim_C9 (R : Int) (hR : 1 ≤ R) :
    create_superhex_with_concentric_values R ≠ .error .runtimeError ∧
    ∃ b, create_superhex_with_concentric_values R = .ok b := by
  obtain ⟨A2, F2, hc, _⟩ := create_builds R hR
  constructor
  · rw [hc]
    intro h
    exact Except.noConfusion h
  · exact ⟨⟨A2, F2⟩, hc⟩

/-- Witness for C9 at radius 1. -/
theorem claim_C9_witness :
    create_superhex_with_concentric_values 1 ≠ .error .runtimeError :=
  (claim_C9 1 (by norm_num)).1

/-- Claim C10: at radius 2 the returned board contains a field (id 1, at
(0,-1)) whose bottom-left neighbor is object 9, which is not an element of
the field list, while the distinct field 5 in the list has the same
coordinates (-1,0). -/
theorem claim_C10 :
    ∃ R : Int, 2 ≤ R ∧ ∃ b, create_superhex_with_concentric_values R = .ok b ∧
      ∃ f ∈ b.fields, ∃ (d : Dir) (j : Nat),
        (getF b.arena f).nbrs.get d = some j ∧
        j ∉ b.fields ∧
        ∃ g ∈ b.fields, g ≠ j ∧
          (getF b.arena g).coords = (getF b.arena j).coords :=
  ⟨2, by norm_num, boardOf (create_superhex_with_concentric_values 2),
    by decide, 1, by decide, Dir.bottomleft, 9, by decide, by decide,
    5, by decide, by decide, by decide⟩

end HexGrid
